import Mathlib

/-
Verification of the DART task-scheduler core: a shallow embedding of the
data-dependency resolver, the remote dependency staging lists and the
scheduler frontend, together with theorems about their behaviour.

The embedding is sequential: every function models the body of the
corresponding C function with mutexes elided (the C code serializes the
relevant accesses under the named mutexes) and the mutable globals passed
as explicit state.  Externally sent messages (remote releases, direct
task-dependency messages) are modelled as action traces.
-/

namespace DartTasking

/-- Dependency types of dart_task_dep_t (IN, OUT, INOUT, DIRECT, IGNORE). -/
inductive DepType where
  | IN
  | OUT
  | INOUT
  | DIRECT
  | IGNORE
deriving DecidableEq

/-- Task states dart_task_state_t. -/
inductive TaskState where
  | CREATED
  | RUNNING
  | TEARDOWN
  | FINISHED
  | DESTROYED
  | ROOT
deriving DecidableEq

/-- Return codes observed at the core boundary. -/
inductive DartRet where
  | OK
  | ERR_INVAL
deriving DecidableEq

/-- The IS_OUT_DEP macro: the dependency type is OUT or INOUT. -/
def IS_OUT_DEP (t : DepType) : Bool :=
  t == DepType.OUT || t == DepType.INOUT

/-- The IS_ACTIVE_TASK macro: the task state is RUNNING or CREATED. -/
def IS_ACTIVE_TASK (s : TaskState) : Bool :=
  s == TaskState.RUNNING || s == TaskState.CREATED

/-- Number of buckets of the dependency hash (DART_DEPHASH_SIZE). -/
def DART_DEPHASH_SIZE : Nat := 1024

/-- hash_gptr: drop the 3 alignment bits of the 64-bit offset and fold in
Marsaglia shift-xor bits, reduced modulo the table size.  The offset is a
uint64_t in the source, hence the explicit reduction modulo 2 ^ 64. -/
def hash_gptr (offset : Nat) : Nat :=
  let off := (offset % 2 ^ 64) >>> 3
  (off ^^^ (off >>> 7) ^^^ (off >>> 11) ^^^ (off >>> 17)) % DART_DEPHASH_SIZE

/-- A declared dependency (dart_task_dep_t).  `addr` is the absolute local
address (the source translates the gptr offset with dart_gptr_getoffset
before any comparison; the embedding works on translated addresses).
`depTask` is the task pointer used by DIRECT deps; `none` models
DART_TASK_NULL. -/
structure TaskDep where
  type : DepType
  addr : Nat
  unitid : Nat
  depTask : Option Nat
deriving DecidableEq

/-- A record of the dependency hash or of a staging list
(dart_dephash_elem_t).  `task` is a task identifier (a local pointer or an
opaque remote token). -/
structure DephashElem where
  task : Nat
  taskdep : TaskDep
  phase : Nat
deriving DecidableEq

/-- The task record (dart_task_t), restricted to the fields the resolver
and frontend read or write.  Counters are Int, matching the signed 32-bit
counters of the source, whose sign is inspected by the release paths. -/
structure Task where
  phase : Nat
  state : TaskState
  unresolvedDeps : Int
  numChildren : Int
  successor : List Nat
  remoteSuccessor : List DephashElem
  parent : Nat
  hasRef : Bool
deriving DecidableEq

/-- The process-wide store of task records, indexed by task identifier. -/
def TaskStore : Type := Nat → Task

/-- Update one task record in the store. -/
def updateTask (σ : TaskStore) (t : Nat) (f : Task → Task) : TaskStore :=
  fun u => if u = t then f (σ u) else σ u

/-- Effects performed by dart_tasking_datadeps_handle_task: prepending the
new task to a predecessor's successor list, incrementing the new task's
unresolved_deps, firing the duplicate-entry assertion, and forwarding a
dependency to the remote layer. -/
inductive DDAction where
  | prependSucc (pred : Nat) (succ : Nat)
  | incUnresolved (t : Nat)
  | assertDup
  | remoteDatadep (unit : Nat) (t : Nat)
deriving DecidableEq

/-- Whether an action is the duplicate-entry assertion firing. -/
def DDAction.isDup : DDAction → Bool
  | DDAction.assertDup => true
  | _ => false

/-- The bucket walk of dart_tasking_datadeps_handle_task for one local
dependency `dep` of task `tid`: newest-first over the bucket, the
duplicate assertion checked on every visited record; on an
address-matching record whose task is not FINISHED, a conflict (the new
dep is OUT-like, or the new dep is IN and the recorded dep is OUT-like)
increments the new task's unresolved_deps and prepends it to the record
task's successor list; the walk breaks at the first address-matching
record with an OUT-like dep. -/
def handle_local_dep_walk (σ : TaskStore) (tid : Nat) (dep : TaskDep) :
    List DephashElem → List DDAction
  | [] => []
  | elem :: rest =>
    let aacts : List DDAction :=
      if elem.taskdep.addr == dep.addr && elem.task == tid then
        [DDAction.assertDup]
      else []
    if elem.taskdep.addr == dep.addr then
      let hacts : List DDAction :=
        if (σ elem.task).state != TaskState.FINISHED &&
           (IS_OUT_DEP dep.type ||
             (dep.type == DepType.IN && IS_OUT_DEP elem.taskdep.type)) then
          [DDAction.incUnresolved tid, DDAction.prependSucc elem.task tid]
        else []
      if IS_OUT_DEP elem.taskdep.type then
        aacts ++ hacts
      else
        aacts ++ hacts ++ handle_local_dep_walk σ tid dep rest
    else
      aacts ++ handle_local_dep_walk σ tid dep rest

/-- Modelled from the spec: the prefix of the bucket the walk visits,
newest first: every record up to and including the first record whose
region address matches and whose recorded dep is OUT-like (the stop
condition of §4.4); records older than that first matching write are
never visited. -/
def specVisited (dep : TaskDep) : List DephashElem → List DephashElem
  | [] => []
  | e :: rest =>
    if e.taskdep.addr == dep.addr && IS_OUT_DEP e.taskdep.type then [e]
    else e :: specVisited dep rest

/-- Modelled from the spec: the successor-wiring actions §4.4 prescribes
for one visited record: if the record's region address matches, its task
is not FINISHED, and a conflict exists (the new dep is OUT-like, or the
new dep is IN while the recorded dep is OUT-like), increment the new
task's unresolved_deps and prepend it to the record task's successor
list; otherwise nothing. -/
def specDepActions (σ : TaskStore) (tid : Nat) (dep : TaskDep)
    (e : DephashElem) : List DDAction :=
  if e.taskdep.addr == dep.addr &&
     (σ e.task).state != TaskState.FINISHED &&
     (IS_OUT_DEP dep.type ||
       (dep.type == DepType.IN && IS_OUT_DEP e.taskdep.type)) then
    [DDAction.incUnresolved tid, DDAction.prependSucc e.task tid]
  else []

/-- C1: the bucket walk of handle_task performs exactly the
successor/increment actions §4.4 prescribes on the visited prefix of the
bucket: each record of the prefix up to and including the first
address-matching OUT-like record contributes the increment-and-prepend
pair exactly when it matches the address, its task is not FINISHED and
the new dep conflicts with it (new dep OUT-like, or new dep IN and
recorded dep OUT-like); records beyond that first matching write
contribute nothing. -/
theorem c1_handle_task_bucket_walk (σ : TaskStore) (tid : Nat)
    (dep : TaskDep) (bucket : List DephashElem) :
    (handle_local_dep_walk σ tid dep bucket).filter (fun a => !a.isDup) =
      (specVisited dep bucket).foldr
        (fun e acc => specDepActions σ tid dep e ++ acc) [] := by
  induction bucket with
  | nil => rfl
  | cons e rest ih =>
    cases haddr : e.taskdep.addr == dep.addr <;>
    cases hdup : e.task == tid <;>
    cases hb : (σ e.task).state != TaskState.FINISHED <;>
    cases hout : IS_OUT_DEP e.taskdep.type <;>
    cases hd : (IS_OUT_DEP dep.type ||
      (dep.type == DepType.IN && IS_OUT_DEP e.taskdep.type)) <;>
    simp_all [handle_local_dep_walk, specVisited, specDepActions,
      List.filter, DDAction.isDup]

/-- One worker thread's queues (dart_thread_t).  A queue is its list of
task identifiers, head first. -/
structure DartThread where
  queue : List Nat
  deferedQueue : List Nat
deriving DecidableEq

/-- The process-wide scheduler state: the task store, the phase bound, the
dependency hash (bucket lists indexed by slot), the two remote staging
lists, the thread pool's queues, and the task recycle/free lists.  The
root task is the task record with identifier 0. -/
structure TaskingState where
  tasks : TaskStore
  phaseBound : Nat
  localDeps : Nat → List DephashElem
  unhandledRemote : List DephashElem
  deferredReleases : List DephashElem
  threads : List DartThread
  taskRecycle : List Nat
  taskFree : List Nat

/-- Modelled from the spec: dart_tasking_taskqueue_push pushes at the HEAD
of the queue (the taskqueue implementation is not under src/, only its
documented header). -/
def taskqueue_push (q : List Nat) (t : Nat) : List Nat := t :: q

/-- Modelled from the spec: dart_tasking_taskqueue_pop pops from the HEAD. -/
def taskqueue_pop : List Nat → Option Nat × List Nat
  | [] => (none, [])
  | t :: rest => (some t, rest)

/-- Modelled from the spec: dart_tasking_taskqueue_popback pops from the
back (used by thieves). -/
def taskqueue_popback (q : List Nat) : Option Nat × List Nat :=
  match q.getLast? with
  | none => (none, [])
  | some t => (some t, q.dropLast)

/-- Read a thread of the pool (out-of-range reads yield an empty thread). -/
def getThread (s : TaskingState) (tid : Nat) : DartThread :=
  s.threads.getD tid { queue := [], deferedQueue := [] }

/-- Write a thread of the pool. -/
def setThread (s : TaskingState) (tid : Nat) (th : DartThread) : TaskingState :=
  { s with threads := s.threads.set tid th }

/-- dart__tasking__enqueue_runnable: push the task on the current thread's
defered queue when its phase is beyond the phase bound, else on the
runnable queue. -/
def dart__tasking__enqueue_runnable (s : TaskingState) (tid : Nat) (t : Nat) :
    TaskingState :=
  let thread := getThread s tid
  if (s.tasks t).phase > s.phaseBound then
    setThread s tid
      { thread with deferedQueue := taskqueue_push thread.deferedQueue t }
  else
    setThread s tid { thread with queue := taskqueue_push thread.queue t }

/-- A logged decrement of unresolved_deps performed by the remote-release
paths: which task, the value of phase_bound at the moment of the
decrement, and whether it came from the deferred remote releases list. -/
structure DecEvent where
  task : Nat
  pbAtDec : Nat
  viaDeferred : Bool
deriving DecidableEq

/-- dart_tasking_datadeps_release_remote_dep: park a dummy DIRECT record
on the deferred remote releases list when the task's phase is beyond the
phase bound, else decrement unresolved_deps (logging an error when
negative) and enqueue runnable on reaching zero. -/
def dart_tasking_datadeps_release_remote_dep (s : TaskingState) (tid : Nat)
    (local_task : Nat) : TaskingState × List DecEvent :=
  if (s.tasks local_task).phase > s.phaseBound then
    let dep : TaskDep :=
      { type := DepType.DIRECT, addr := 0, unitid := 0, depTask := none }
    let dr : DephashElem := { task := local_task, taskdep := dep, phase := 0 }
    ({ s with deferredReleases := dr :: s.deferredReleases }, [])
  else
    let v := (s.tasks local_task).unresolvedDeps - 1
    let upd := updateTask s.tasks local_task (fun t => { t with unresolvedDeps := v })
    let s1 := { s with tasks := upd }
    let s2 := if v < 0 then s1
              else if v = 0 then dart__tasking__enqueue_runnable s1 tid local_task
              else s1
    (s2, [⟨local_task, s.phaseBound, false⟩])

/-- One record of the deferred remote releases list being released:
decrement the task's unresolved_deps, flag a defect when negative,
enqueue runnable when zero. -/
def release_deferred_one (s : TaskingState) (tid : Nat) (elem : DephashElem) :
    TaskingState × List DecEvent :=
  let task := elem.task
  let v := (s.tasks task).unresolvedDeps - 1
  let upd := updateTask s.tasks task (fun t => { t with unresolvedDeps := v })
  let s1 := { s with tasks := upd }
  let s2 := if v < 0 then s1
            else if v = 0 then dart__tasking__enqueue_runnable s1 tid task
            else s1
  (s2, [⟨task, s.phaseBound, true⟩])

/-- The walk of release_deferred_remote_releases over the parked records. -/
def drain_deferred (tid : Nat) :
    TaskingState → List DephashElem → TaskingState × List DecEvent
  | s, [] => (s, [])
  | s, elem :: rest =>
    let p := release_deferred_one s tid elem
    let q := drain_deferred tid p.1 rest
    (q.1, p.2 ++ q.2)

/-- release_deferred_remote_releases: drain every parked record, then
clear the list. -/
def release_deferred_remote_releases (s : TaskingState) (tid : Nat) :
    TaskingState × List DecEvent :=
  let p := drain_deferred tid s s.deferredReleases
  ({ p.1 with deferredReleases := [] }, p.2)

/-- The record filter of the candidate-selection walk of
dart_tasking_datadeps_release_unhandled_remote: the record's region
address matches the request's, its dep is OUT-like, and its task is
active (CREATED or RUNNING). -/
def remoteMatch (tasks : TaskStore) (rdep : DephashElem)
    (e : DephashElem) : Bool :=
  e.taskdep.addr == rdep.taskdep.addr &&
  IS_OUT_DEP e.taskdep.type &&
  IS_ACTIVE_TASK (tasks e.task).state

/-- The direct-dep candidate update of the walk: the task replaces the
current candidate when there is none yet or when the current one's phase
is strictly larger. -/
def betterMin (tasks : TaskStore) (task : Nat) : Option Nat → Option Nat
  | none => some task
  | some d => if (tasks d).phase > (tasks task).phase then some task
              else some d

/-- The fulfillment candidate update of the walk: the task replaces the
current candidate when there is none yet or when its phase is strictly
larger than the current one's. -/
def betterMax (tasks : TaskStore) (task : Nat) : Option Nat → Option Nat
  | none => some task
  | some c => if (tasks task).phase > (tasks c).phase then some task
              else some c

/-- The candidate-selection walk of
dart_tasking_datadeps_release_unhandled_remote over one bucket: a
matching task whose phase is at least the request's phase updates the
direct-dep candidate (smallest phase wins), a matching task whose phase
is below the request's phase updates the fulfillment candidate (largest
phase wins).  The accumulator carries
(fulfillment candidate, direct-dep candidate). -/
def select_candidates (tasks : TaskStore) (rdep : DephashElem) :
    List DephashElem → Option Nat × Option Nat → Option Nat × Option Nat
  | [], acc => acc
  | e :: rest, (candidate, direct) =>
    let task := e.task
    if remoteMatch tasks rdep e then
      if (tasks task).phase ≥ rdep.phase then
        select_candidates tasks rdep rest
          (candidate, betterMin tasks task direct)
      else
        select_candidates tasks rdep rest
          (betterMax tasks task candidate, direct)
    else
      select_candidates tasks rdep rest (candidate, direct)

/-- Externally visible effects of the inbound remote resolution. -/
inductive RemoteAction where
  | directTaskdep (target : Nat) (localTask : Nat) (remoteTask : Nat)
  | incUnresolved (t : Nat)
  | attachRemoteSuccessor (t : Nat) (rdep : DephashElem)
  | remoteRelease (target : Nat) (remoteTask : Nat) (dep : TaskDep)
  | recycleElem
deriving DecidableEq

/-- Processing of one staged inbound request by
dart_tasking_datadeps_release_unhandled_remote: walk the bucket of the
requested region, then commit: if a direct-dep candidate exists, send it
a direct task-dependency message and increment its unresolved_deps; if a
fulfillment candidate exists, attach the request record to its
remote_successors, else send an immediate release to the origin and
recycle the record. -/
def handle_unhandled_rdep (s : TaskingState) (rdep : DephashElem) :
    TaskingState × List RemoteAction :=
  let slot := hash_gptr rdep.taskdep.addr
  let sel := select_candidates s.tasks rdep (s.localDeps slot) (none, none)
  let candidate := sel.1
  let direct := sel.2
  let step1 : TaskingState × List RemoteAction :=
    match direct with
    | some d =>
      let upd := updateTask s.tasks d (fun t => { t with unresolvedDeps := t.unresolvedDeps + 1 })
      ({ s with tasks := upd },
       [RemoteAction.directTaskdep rdep.taskdep.unitid d rdep.task,
        RemoteAction.incUnresolved d])
    | none => (s, [])
  match candidate with
  | some c =>
    let upd := updateTask step1.1.tasks c (fun t => { t with remoteSuccessor := rdep :: t.remoteSuccessor })
    ({ step1.1 with tasks := upd },
     step1.2 ++ [RemoteAction.attachRemoteSuccessor c rdep])
  | none =>
    (step1.1,
     step1.2 ++ [RemoteAction.remoteRelease rdep.taskdep.unitid rdep.task
                   rdep.taskdep,
                 RemoteAction.recycleElem])

/-- The walk of dart_tasking_datadeps_release_unhandled_remote over the
staged inbound requests, head first. -/
def drain_unhandled :
    TaskingState → List DephashElem → TaskingState × List RemoteAction
  | s, [] => (s, [])
  | s, rdep :: rest =>
    let p := handle_unhandled_rdep s rdep
    let q := drain_unhandled p.1 rest
    (q.1, p.2 ++ q.2)

/-- dart_tasking_datadeps_release_unhandled_remote: resolve every staged
inbound request, clear that list, then drain the deferred remote
releases. -/
def dart_tasking_datadeps_release_unhandled_remote (s : TaskingState)
    (tid : Nat) : TaskingState × List RemoteAction × List DecEvent :=
  let p := drain_unhandled s s.unhandledRemote
  let s2 := { p.1 with unhandledRemote := [] }
  let q := release_deferred_remote_releases s2 tid
  (q.1, p.2, q.2)

/-- A remote dependency request arriving with its remote phase
(dart_phase_dep_t). -/
structure PhaseDep where
  dep : TaskDep
  phase : Nat
deriving DecidableEq

/-- dart_tasking_datadeps_handle_remote_task: reject any type other than
IN; otherwise allocate a record stamped with the originating participant
and the remote phase and push it on the unhandled remote deps list. -/
def dart_tasking_datadeps_handle_remote_task (s : TaskingState)
    (rdep : PhaseDep) (remote_task : Nat) (origin : Nat) :
    DartRet × TaskingState :=
  if rdep.dep.type != DepType.IN then (DartRet.ERR_INVAL, s)
  else
    let rs : DephashElem :=
      { task := remote_task,
        taskdep := { rdep.dep with unitid := origin },
        phase := rdep.phase }
    (DartRet.OK, { s with unhandledRemote := rs :: s.unhandledRemote })

/-- Externally visible effects of releasing a finished task's
dependents. -/
inductive ReleaseAction where
  | remoteRelease (target : Nat) (remoteTask : Nat) (dep : TaskDep)
  | recycleElem
  | enqueueRunnable (t : Nat)
  | defect (t : Nat)
  | deallocNode
deriving DecidableEq

/-- release_remote_dependencies: for each record on the task's
remote_successor list transmit a release message to the origin
identifying the remote task and the original dep, recycle the record;
finally clear the list. -/
def release_remote_dependencies (s : TaskingState) (task : Nat) :
    TaskingState × List ReleaseAction :=
  let acts := (s.tasks task).remoteSuccessor.foldr
    (fun tmp acc =>
      ReleaseAction.remoteRelease tmp.taskdep.unitid tmp.task tmp.taskdep ::
      ReleaseAction.recycleElem :: acc) []
  let upd := updateTask s.tasks task (fun t => { t with remoteSuccessor := [] })
  ({ s with tasks := upd }, acts)

/-- The successor walk of dart_tasking_datadeps_release_local_task: for
each node decrement the successor's unresolved_deps, enqueue it runnable
on zero, flag a defect on a negative result, and deallocate the node.
The C code leaves the walked successor field of the finished task
dangling; the embedding likewise leaves the field unchanged. -/
def release_successors (tid : Nat) :
    TaskingState → List Nat → TaskingState × List ReleaseAction
  | s, [] => (s, [])
  | s, succ :: rest =>
    let v := (s.tasks succ).unresolvedDeps - 1
    let upd := updateTask s.tasks succ (fun t => { t with unresolvedDeps := v })
    let s1 := { s with tasks := upd }
    let s2 := if v < 0 then s1
              else if v = 0 then dart__tasking__enqueue_runnable s1 tid succ
              else s1
    let acts := (if v < 0 then [ReleaseAction.defect succ]
                 else if v = 0 then [ReleaseAction.enqueueRunnable succ]
                 else []) ++ [ReleaseAction.deallocNode]
    let q := release_successors tid s2 rest
    (q.1, acts ++ q.2)

/-- dart_tasking_datadeps_release_local_task: first release the remote
successors, then walk the local successor list. -/
def dart_tasking_datadeps_release_local_task (s : TaskingState) (tid : Nat)
    (task : Nat) : TaskingState × List ReleaseAction :=
  let p := release_remote_dependencies s task
  let q := release_successors tid p.1 ((p.1.tasks task).successor)
  (q.1, p.2 ++ q.2)

/-- Apply one logged handle_task effect to the state (the assertion and
the remote forward change no local state). -/
def applyDDAction (s : TaskingState) : DDAction → TaskingState
  | DDAction.prependSucc pred succ =>
    let upd := updateTask s.tasks pred (fun t => { t with successor := succ :: t.successor })
    { s with tasks := upd }
  | DDAction.incUnresolved t =>
    let upd := updateTask s.tasks t (fun u => { u with unresolvedDeps := u.unresolvedDeps + 1 })
    { s with tasks := upd }
  | DDAction.assertDup => s
  | DDAction.remoteDatadep _ _ => s

/-- Apply a trace of handle_task effects in order.  The bucket walk of
the source interleaves these writes with its reads, but the walk's
conditions only read task states and the bucket, neither of which these
writes touch, so applying the trace after the walk is equivalent. -/
def applyDDActions (s : TaskingState) (acts : List DDAction) : TaskingState :=
  acts.foldl applyDDAction s

/-- dephash_add_local: prepend a new record stamped with the task's phase
at the bucket of the dependency's address. -/
def dephash_add_local (s : TaskingState) (dep : TaskDep) (tid : Nat) :
    TaskingState :=
  let elem : DephashElem :=
    { task := tid, taskdep := dep, phase := (s.tasks tid).phase }
  let slot := hash_gptr dep.addr
  { s with localDeps := fun i => if i = slot then elem :: s.localDeps i
                                 else s.localDeps i }

/-- Processing of one declared dependency by
dart_tasking_datadeps_handle_task: IGNORE is skipped; DIRECT with a
non-null target prepends the task to the (not FINISHED) target's
successor list and increments the task's unresolved_deps; a dependency
owned by another participant is forwarded to the remote layer when the
parent is the ROOT task (and dropped with a warning otherwise); a local
region dependency walks its bucket and is then added to the hash. -/
def datadeps_process_dep (s : TaskingState) (myid : Nat) (tid : Nat)
    (dep : TaskDep) : TaskingState × List DDAction :=
  if dep.type == DepType.IGNORE then (s, [])
  else if dep.type == DepType.DIRECT then
    match dep.depTask with
    | none => (s, [])
    | some deptask =>
      if (s.tasks deptask).state != TaskState.FINISHED then
        let acts := [DDAction.prependSucc deptask tid, DDAction.incUnresolved tid]
        (applyDDActions s acts, acts)
      else (s, [])
  else if dep.unitid != myid then
    if (s.tasks (s.tasks tid).parent).state == TaskState.ROOT then
      (s, [DDAction.remoteDatadep dep.unitid tid])
    else (s, [])
  else
    let slot := hash_gptr dep.addr
    let acts := handle_local_dep_walk s.tasks tid dep (s.localDeps slot)
    let s1 := applyDDActions s acts
    (dephash_add_local s1 dep tid, acts)

/-- dart_tasking_datadeps_handle_task: process the declared dependencies
in order. -/
def dart_tasking_datadeps_handle_task (myid : Nat) (tid : Nat) :
    TaskingState → List TaskDep → TaskingState × List DDAction
  | s, [] => (s, [])
  | s, dep :: rest =>
    let p := datadeps_process_dep s myid tid dep
    let q := dart_tasking_datadeps_handle_task myid tid p.1 rest
    (q.1, p.2 ++ q.2)

/-- dart_tasking_datadeps_reset: recycle every record of every bucket and
clear the hash. -/
def dart_tasking_datadeps_reset (s : TaskingState) : TaskingState :=
  { s with localDeps := fun _ => [] }

/-- The rotation of victim thread indices next_task steals from: starting
right of the thread and wrapping, skipping the thread itself. -/
def stealOrder (tid n : Nat) : List Nat :=
  ((List.range n).map (fun k => (tid + 1 + k) % n)).filter (fun i => i != tid)

/-- The stealing walk of next_task: pop from the back of the first
victim queue holding a task. -/
def next_task_steal (s : TaskingState) : List Nat → Option Nat × TaskingState
  | [] => (none, s)
  | i :: rest =>
    let th := getThread s i
    match taskqueue_popback th.queue with
    | (some t, q) => (some t, setThread s i { th with queue := q })
    | (none, _) => next_task_steal s rest

/-- next_task: pop from the thread's own queue, else steal round-robin
from the other threads' queues. -/
def next_task (s : TaskingState) (tid : Nat) : Option Nat × TaskingState :=
  let th := getThread s tid
  match taskqueue_pop th.queue with
  | (some t, q) => (some t, setThread s tid { th with queue := q })
  | (none, _) => next_task_steal s (stealOrder tid s.threads.length)

/-- destroy_task: reset the reusable fields, mark DESTROYED and push the
record on the recycle list. -/
def destroy_task (s : TaskingState) (task : Nat) : TaskingState :=
  let upd := updateTask s.tasks task (fun t =>
    { t with phase := 0, parent := 0, remoteSuccessor := [], successor := [],
             state := TaskState.DESTROYED, hasRef := false })
  { s with tasks := upd, taskRecycle := task :: s.taskRecycle }

/-- The executor's handle_task on a popped task: mark RUNNING, run the
function, run the implicit barrier, then under the task mutex mark
TEARDOWN, release local and remote dependents, mark FINISHED; decrement
the parent's child count and destroy the record unless a user handle
exists.  Task bodies are external code and modelled as effect-free, so
a popped task has no children and its implicit barrier is the identity. -/
def handle_task_exec (s : TaskingState) (tid : Nat) :
    Option Nat → TaskingState
  | none => s
  | some task =>
    let updR := updateTask s.tasks task (fun t => { t with state := TaskState.RUNNING })
    let s1 := { s with tasks := updR }
    let updT := updateTask s1.tasks task (fun t => { t with state := TaskState.TEARDOWN })
    let s2 := { s1 with tasks := updT }
    let s3 := (dart_tasking_datadeps_release_local_task s2 tid task).1
    let updF := updateTask s3.tasks task (fun t => { t with state := TaskState.FINISHED })
    let s4 := { s3 with tasks := updF }
    let parent := (s4.tasks task).parent
    let updC := updateTask s4.tasks parent (fun t => { t with numChildren := t.numChildren - 1 })
    let s5 := { s4 with tasks := updC }
    if (s5.tasks task).hasRef then s5 else destroy_task s5 task

/-- The inner loop of dart__tasking__task_complete: while the current
task has outstanding children, poll the transport (a no-op in the
model), pop a task and execute it.  `fuel` bounds the number of
iterations; exhausting it models non-termination. -/
def completeLoop (tid curTask : Nat) :
    Nat → TaskingState → Option TaskingState
  | 0, s =>
    if (s.tasks curTask).numChildren > 0 then none else some s
  | fuel + 1, s =>
    if (s.tasks curTask).numChildren > 0 then
      let p := next_task s tid
      completeLoop tid curTask fuel (handle_task_exec p.2 tid p.1)
    else some s

/-- dart__tasking__task_complete.  `curTask` is the calling thread's
current task; the root task has identifier 0.  On the root, first drain
the transport (no-op in the model) and the unhandled remote requests,
advance the phase bound to the root's phase, splice the defered queue
into the runnable queue; then run tasks until the current task has no
outstanding children; finally, on the root, reset the dependency hash
and promote the recycle list to the free list. -/
def dart__tasking__task_complete (s : TaskingState) (tid curTask : Nat)
    (fuel : Nat) : Option (DartRet × TaskingState × List DecEvent) :=
  if curTask == 0 && tid != 0 then some (DartRet.ERR_INVAL, s, [])
  else
    let pre : TaskingState × List DecEvent :=
      if curTask == 0 then
        let p := dart_tasking_datadeps_release_unhandled_remote s tid
        let sb := { p.1 with phaseBound := (p.1.tasks curTask).phase }
        let th := getThread sb tid
        let sc := setThread sb tid
          { th with queue := th.deferedQueue ++ th.queue, deferedQueue := [] }
        (sc, p.2.2)
      else (s, [])
    match completeLoop tid curTask fuel pre.1 with
    | none => none
    | some s2 =>
      let s3 :=
        if curTask == 0 then
          let sa := dart_tasking_datadeps_reset s2
          { sa with taskFree := sa.taskRecycle, taskRecycle := [] }
        else s2
      some (DartRet.OK, s3, pre.2)

/-- dart__tasking__phase: master-only; poll the transport and the
resolver's end_phase hook (both no-ops) and increment the root task's
phase (a uint64_t in the source, hence the reduction modulo 2 ^ 64). -/
def dart__tasking__phase (s : TaskingState) (tid : Nat) :
    DartRet × TaskingState :=
  if tid != 0 then (DartRet.ERR_INVAL, s)
  else
    let upd := updateTask s.tasks 0 (fun t => { t with phase := (t.phase + 1) % 2 ^ 64 })
    (DartRet.OK, { s with tasks := upd })

/-- The inner loop of dart__tasking__task_wait: run tasks until the
awaited task is FINISHED. -/
def waitLoop (tid task : Nat) : Nat → TaskingState → Option TaskingState
  | 0, s =>
    if (s.tasks task).state == TaskState.FINISHED then some s else none
  | fuel + 1, s =>
    if (s.tasks task).state == TaskState.FINISHED then some s
    else
      let p := next_task s tid
      waitLoop tid task fuel (handle_task_exec p.2 tid p.1)

/-- dart__tasking__task_wait.  The handle is an Option Option: `none`
models a null handle pointer, `some none` a handle referencing
DART_TASK_NULL.  A null or DESTROYED handle is rejected; otherwise run
tasks until the awaited task finishes, then destroy it and null the
handle out. -/
def dart__tasking__task_wait (s : TaskingState) (tid : Nat)
    (tr : Option (Option Nat)) (fuel : Nat) :
    Option (DartRet × TaskingState × Option (Option Nat)) :=
  match tr with
  | none => some (DartRet.ERR_INVAL, s, tr)
  | some none => some (DartRet.ERR_INVAL, s, tr)
  | some (some task) =>
    if (s.tasks task).state == TaskState.DESTROYED then
      some (DartRet.ERR_INVAL, s, tr)
    else
      match waitLoop tid task fuel s with
      | none => none
      | some s1 => some (DartRet.OK, destroy_task s1 task, some none)

/-- dart__tasking__thread_num: the calling thread's id once the subsystem
is up, 0 otherwise. -/
def dart__tasking__thread_num (inited : Bool) (tpdThreadId : Nat) : Nat :=
  if inited then tpdThreadId else 0

/-- dart__tasking__num_threads: the pool size once the subsystem is up,
1 otherwise. -/
def dart__tasking__num_threads (inited : Bool) (numThreads : Nat) : Nat :=
  if inited then numThreads else 1

/-- A blank task record used to populate the concrete example stores. -/
def blankTask : Task :=
  { phase := 0, state := TaskState.CREATED, unresolvedDeps := 0,
    numChildren := 0, successor := [], remoteSuccessor := [], parent := 0,
    hasRef := false }

/-- The root task sentinel of the examples (identifier 0, state ROOT). -/
def rootTask : Task := { blankTask with state := TaskState.ROOT }

/-- A quiet scheduler state with one worker thread and no records. -/
def blankState : TaskingState :=
  { tasks := fun t => if t = 0 then rootTask else blankTask,
    phaseBound := 0, localDeps := fun _ => [], unhandledRemote := [],
    deferredReleases := [], threads := [{ queue := [], deferedQueue := [] }],
    taskRecycle := [], taskFree := [] }

theorem getThread_setThread_self (s : TaskingState) (tid : Nat)
    (th : DartThread) (h : tid < s.threads.length) :
    getThread (setThread s tid th) tid = th := by
  simp [getThread, setThread, List.getD_eq_getElem?_getD, List.getElem?_set,
    h]

theorem getThread_setThread_other (s : TaskingState) (tid j : Nat)
    (th : DartThread) (hj : j ≠ tid) :
    getThread (setThread s tid th) j = getThread s j := by
  have hne : tid ≠ j := fun h => hj h.symm
  simp [getThread, setThread, List.getD_eq_getElem?_getD, List.getElem?_set,
    hne]

/-- C10: before init() succeeds or after fini(), thread_num reports 0 and
num_threads reports 1, whatever the thread-local id and pool size are. -/
theorem c10_uninitialized_identity (tpdThreadId numThreads : Nat) :
    dart__tasking__thread_num false tpdThreadId = 0 ∧
    dart__tasking__num_threads false numThreads = 1 :=
  ⟨rfl, rfl⟩

/-- C4: handle_remote_task rejects any dependency type other than IN with
ERR_INVAL and leaves the unhandled remote deps list (and the whole state)
unchanged; an IN request is stamped with the originating participant and
the remote phase, pushed on the unhandled list, and acknowledged OK. -/
theorem c4_handle_remote_task (s : TaskingState) (rdep : PhaseDep)
    (remote_task origin : Nat) :
    (rdep.dep.type ≠ DepType.IN →
      dart_tasking_datadeps_handle_remote_task s rdep remote_task origin =
        (DartRet.ERR_INVAL, s)) ∧
    (rdep.dep.type = DepType.IN →
      dart_tasking_datadeps_handle_remote_task s rdep remote_task origin =
        (DartRet.OK,
          { s with unhandledRemote :=
              { task := remote_task,
                taskdep := { rdep.dep with unitid := origin },
                phase := rdep.phase } :: s.unhandledRemote })) := by
  constructor
  · intro h
    simp [dart_tasking_datadeps_handle_remote_task, h]
  · intro h
    simp [dart_tasking_datadeps_handle_remote_task, h]

/-- Concrete IN-typed and OUT-typed inbound requests for the C4 witness. -/
def c4InReq : PhaseDep :=
  { dep := { type := DepType.IN, addr := 16, unitid := 2, depTask := none },
    phase := 1 }

def c4OutReq : PhaseDep :=
  { dep := { type := DepType.OUT, addr := 16, unitid := 2, depTask := none },
    phase := 1 }

theorem c4_handle_remote_task_witness :
    dart_tasking_datadeps_handle_remote_task blankState c4OutReq 7 3 =
      (DartRet.ERR_INVAL, blankState) ∧
    dart_tasking_datadeps_handle_remote_task blankState c4InReq 7 3 =
      (DartRet.OK,
        { blankState with unhandledRemote :=
            [{ task := 7,
               taskdep := { type := DepType.IN, addr := 16, unitid := 3,
                            depTask := none },
               phase := 1 }] }) :=
  ⟨(c4_handle_remote_task blankState c4OutReq 7 3).1 (by decide),
   (c4_handle_remote_task blankState c4InReq 7 3).2 rfl⟩

/-- C5: enqueue_runnable pushes the task on the calling thread's defered
queue exactly when the task's phase is beyond the phase bound and on the
calling thread's runnable queue otherwise; every other thread's queues
and all other components of the state are untouched. -/
theorem c5_enqueue_runnable (s : TaskingState) (tid t : Nat)
    (h : tid < s.threads.length) :
    ((s.tasks t).phase > s.phaseBound →
      getThread (dart__tasking__enqueue_runnable s tid t) tid =
        { queue := (getThread s tid).queue,
          deferedQueue := t :: (getThread s tid).deferedQueue }) ∧
    ((s.tasks t).phase ≤ s.phaseBound →
      getThread (dart__tasking__enqueue_runnable s tid t) tid =
        { queue := t :: (getThread s tid).queue,
          deferedQueue := (getThread s tid).deferedQueue }) ∧
    (∀ j, j ≠ tid →
      getThread (dart__tasking__enqueue_runnable s tid t) j =
        getThread s j) ∧
    (dart__tasking__enqueue_runnable s tid t).tasks = s.tasks ∧
    (dart__tasking__enqueue_runnable s tid t).localDeps = s.localDeps ∧
    (dart__tasking__enqueue_runnable s tid t).phaseBound = s.phaseBound ∧
    (dart__tasking__enqueue_runnable s tid t).unhandledRemote =
      s.unhandledRemote ∧
    (dart__tasking__enqueue_runnable s tid t).deferredReleases =
      s.deferredReleases := by
  by_cases hp : (s.tasks t).phase > s.phaseBound
  · refine ⟨fun _ => ?_, fun hle => absurd hp (not_lt.mpr hle), fun j hj => ?_,
      ?_, ?_, ?_, ?_, ?_⟩
    · simp only [dart__tasking__enqueue_runnable, if_pos hp, taskqueue_push]
      exact getThread_setThread_self _ _ _ h
    · simp only [dart__tasking__enqueue_runnable, if_pos hp, taskqueue_push]
      exact getThread_setThread_other _ _ _ _ hj
    all_goals simp [dart__tasking__enqueue_runnable, if_pos hp, setThread]
  · refine ⟨fun hgt => absurd hgt hp, fun _ => ?_, fun j hj => ?_,
      ?_, ?_, ?_, ?_, ?_⟩
    · simp only [dart__tasking__enqueue_runnable, if_neg hp, taskqueue_push]
      exact getThread_setThread_self _ _ _ h
    · simp only [dart__tasking__enqueue_runnable, if_neg hp, taskqueue_push]
      exact getThread_setThread_other _ _ _ _ hj
    all_goals simp [dart__tasking__enqueue_runnable, if_neg hp, setThread]

/-- A state whose task 3 lives in phase 2: enqueued under phase bound 0
it must go to the defered queue. -/
def c5state : TaskingState :=
  { blankState with
    tasks := fun t => if t = 0 then rootTask
                      else if t = 3 then { blankTask with phase := 2 }
                      else blankTask }

theorem c5_enqueue_runnable_witness :
    (0 : Nat) < c5state.threads.length ∧
    getThread (dart__tasking__enqueue_runnable c5state 0 3) 0 =
      { queue := [], deferedQueue := [3] } ∧
    getThread (dart__tasking__enqueue_runnable c5state 0 1) 0 =
      { queue := [1], deferedQueue := [] } ∧
    getThread (dart__tasking__enqueue_runnable c5state 0 3) 4 =
      getThread c5state 4 := by
  have h3 := c5_enqueue_runnable c5state 0 3 (by decide)
  have h1 := c5_enqueue_runnable c5state 0 1 (by decide)
  refine ⟨by decide, ?_, ?_, ?_⟩
  · have := h3.1 (by decide)
    simpa [c5state, blankState, getThread] using this
  · have := h1.2.1 (by decide)
    simpa [c5state, blankState, getThread] using this
  · exact h3.2.2.1 4 (by decide)

/-- C7: the guarded invalid usages return ERR_INVAL without any effect:
task_complete on the root task from a non-master thread, phase from a
non-master thread, and task_wait on a null handle pointer, a null handle
or a DESTROYED task. -/
theorem c7_invalid_usage (s : TaskingState) (tid fuel : Nat)
    (tr : Option (Option Nat)) :
    (tid ≠ 0 →
      dart__tasking__task_complete s tid 0 fuel =
        some (DartRet.ERR_INVAL, s, [])) ∧
    (tid ≠ 0 → dart__tasking__phase s tid = (DartRet.ERR_INVAL, s)) ∧
    (tr = none ∨ tr = some none ∨
       (∃ task, tr = some (some task) ∧
          (s.tasks task).state = TaskState.DESTROYED) →
      dart__tasking__task_wait s tid tr fuel =
        some (DartRet.ERR_INVAL, s, tr)) := by
  refine ⟨fun h => ?_, fun h => ?_, fun h => ?_⟩
  · simp [dart__tasking__task_complete, h]
  · simp [dart__tasking__phase, h]
  · rcases h with h | h | ⟨task, htr, hst⟩
    · simp [dart__tasking__task_wait, h]
    · simp [dart__tasking__task_wait, h]
    · subst htr
      simp [dart__tasking__task_wait, hst]

/-- A state whose task 9 is DESTROYED, for the C7 witness. -/
def c7state : TaskingState :=
  { blankState with
    tasks := fun t => if t = 0 then rootTask
                      else if t = 9 then { blankTask with state := TaskState.DESTROYED }
                      else blankTask }

theorem c7_invalid_usage_witness :
    dart__tasking__task_complete c7state 1 0 5 =
      some (DartRet.ERR_INVAL, c7state, []) ∧
    dart__tasking__phase c7state 2 = (DartRet.ERR_INVAL, c7state) ∧
    dart__tasking__task_wait c7state 0 (some (some 9)) 3 =
      some (DartRet.ERR_INVAL, c7state, some (some 9)) :=
  ⟨(c7_invalid_usage c7state 1 5 none).1 (by decide),
   (c7_invalid_usage c7state 2 5 none).2.1 (by decide),
   (c7_invalid_usage c7state 0 3 (some (some 9))).2.2
     (Or.inr (Or.inr ⟨9, rfl, by decide⟩))⟩

theorem select_direct_mono (tasks : TaskStore) (rdep : DephashElem)
    (bucket : List DephashElem) :
    ∀ (acc : Option Nat × Option Nat) (d0 : Nat), acc.2 = some d0 →
      ∃ d, (select_candidates tasks rdep bucket acc).2 = some d ∧
        (tasks d).phase ≤ (tasks d0).phase := by
  induction bucket with
  | nil =>
    intro acc d0 h
    exact ⟨d0, by simp [select_candidates, h], le_refl _⟩
  | cons e rest ih =>
    intro acc d0 h
    obtain ⟨cand, dir⟩ := acc
    simp only at h
    subst h
    simp only [select_candidates]
    by_cases hm : remoteMatch tasks rdep e = true
    · rw [if_pos hm]
      by_cases hp : (tasks e.task).phase ≥ rdep.phase
      · rw [if_pos hp]
        simp only [betterMin]
        by_cases hgt : (tasks d0).phase > (tasks e.task).phase
        · rw [if_pos hgt]
          obtain ⟨d, hd, hle⟩ := ih (cand, some e.task) e.task rfl
          exact ⟨d, hd, le_trans hle (le_of_lt hgt)⟩
        · rw [if_neg hgt]
          exact ih (cand, some d0) d0 rfl
      · rw [if_neg hp]
        exact ih _ d0 rfl
    · rw [if_neg hm]
      exact ih (cand, some d0) d0 rfl

theorem select_direct_min (tasks : TaskStore) (rdep : DephashElem)
    (bucket : List DephashElem) :
    ∀ (acc : Option Nat × Option Nat) (e : DephashElem), e ∈ bucket →
      remoteMatch tasks rdep e = true →
      rdep.phase ≤ (tasks e.task).phase →
      ∃ d, (select_candidates tasks rdep bucket acc).2 = some d ∧
        (tasks d).phase ≤ (tasks e.task).phase := by
  induction bucket with
  | nil =>
    intro acc e he
    exact absurd he (List.not_mem_nil e)
  | cons e0 rest ih =>
    intro acc e he hm hp
    obtain ⟨cand, dir⟩ := acc
    rcases List.mem_cons.mp he with rfl | hmem
    · simp only [select_candidates]
      rw [if_pos hm, if_pos hp]
      cases dir with
      | none =>
        simp only [betterMin]
        exact select_direct_mono tasks rdep rest (cand, some e.task) e.task rfl
      | some d0 =>
        simp only [betterMin]
        by_cases hgt : (tasks d0).phase > (tasks e.task).phase
        · rw [if_pos hgt]
          exact select_direct_mono tasks rdep rest (cand, some e.task) e.task
            rfl
        · rw [if_neg hgt]
          obtain ⟨d, hd, hle⟩ :=
            select_direct_mono tasks rdep rest (cand, some d0) d0 rfl
          exact ⟨d, hd, le_trans hle (not_lt.mp hgt)⟩
    · simp only [select_candidates]
      by_cases hm0 : remoteMatch tasks rdep e0 = true
      · rw [if_pos hm0]
        by_cases hp0 : (tasks e0.task).phase ≥ rdep.phase
        · rw [if_pos hp0]
          exact ih _ e hmem hm hp
        · rw [if_neg hp0]
          exact ih _ e hmem hm hp
      · rw [if_neg hm0]
        exact ih _ e hmem hm hp

theorem select_direct_none (tasks : TaskStore) (rdep : DephashElem)
    (bucket : List DephashElem) :
    ∀ (acc : Option Nat × Option Nat),
      (select_candidates tasks rdep bucket acc).2 = none →
      acc.2 = none ∧ ∀ e ∈ bucket, remoteMatch tasks rdep e = true →
        (tasks e.task).phase < rdep.phase := by
  induction bucket with
  | nil =>
    intro acc h
    refine ⟨by simpa [select_candidates] using h, ?_⟩
    intro e he
    exact absurd he (List.not_mem_nil e)
  | cons e0 rest ih =>
    intro acc h
    obtain ⟨cand, dir⟩ := acc
    by_cases hm0 : remoteMatch tasks rdep e0 = true
    · by_cases hp0 : (tasks e0.task).phase ≥ rdep.phase
      · exfalso
        simp only [select_candidates] at h
        rw [if_pos hm0, if_pos hp0] at h
        cases dir with
        | none =>
          simp only [betterMin] at h
          obtain ⟨d, hd, _⟩ :=
            select_direct_mono tasks rdep rest (cand, some e0.task) e0.task
              rfl
          rw [h] at hd
          exact Option.noConfusion hd
        | some d0 =>
          simp only [betterMin] at h
          by_cases hgt : (tasks d0).phase > (tasks e0.task).phase
          · rw [if_pos hgt] at h
            obtain ⟨d, hd, _⟩ :=
              select_direct_mono tasks rdep rest (cand, some e0.task) e0.task
                rfl
            rw [h] at hd
            exact Option.noConfusion hd
          · rw [if_neg hgt] at h
            obtain ⟨d, hd, _⟩ :=
              select_direct_mono tasks rdep rest (cand, some d0) d0 rfl
            rw [h] at hd
            exact Option.noConfusion hd
      · simp only [select_candidates] at h
        rw [if_pos hm0, if_neg hp0] at h
        obtain ⟨hacc, hrest⟩ := ih _ h
        refine ⟨hacc, ?_⟩
        intro e he hme
        rcases List.mem_cons.mp he with rfl | hmem
        · exact not_le.mp hp0
        · exact hrest e hmem hme
    · simp only [select_candidates] at h
      rw [if_neg hm0] at h
      obtain ⟨hacc, hrest⟩ := ih _ h
      refine ⟨hacc, ?_⟩
      intro e he hme
      rcases List.mem_cons.mp he with rfl | hmem
      · exact absurd hme hm0
      · exact hrest e hmem hme

theorem select_direct_mem (tasks : TaskStore) (rdep : DephashElem)
    (bucket : List DephashElem) :
    ∀ (acc : Option Nat × Option Nat) (d : Nat),
      (select_candidates tasks rdep bucket acc).2 = some d →
      acc.2 = some d ∨
      ∃ e ∈ bucket, remoteMatch tasks rdep e = true ∧ e.task = d ∧
        rdep.phase ≤ (tasks d).phase := by
  induction bucket with
  | nil =>
    intro acc d h
    exact Or.inl (by simpa [select_candidates] using h)
  | cons e0 rest ih =>
    intro acc d h
    obtain ⟨cand, dir⟩ := acc
    by_cases hm0 : remoteMatch tasks rdep e0 = true
    · by_cases hp0 : (tasks e0.task).phase ≥ rdep.phase
      · simp only [select_candidates] at h
        rw [if_pos hm0, if_pos hp0] at h
        cases dir with
        | none =>
          simp only [betterMin] at h
          rcases ih _ d h with hacc | ⟨e, he, hme, het, hphase⟩
          · simp only at hacc
            cases hacc
            exact Or.inr ⟨e0, List.mem_cons_self e0 rest, hm0, rfl, hp0⟩
          · exact Or.inr ⟨e, List.mem_cons_of_mem e0 he, hme, het, hphase⟩
        | some d0 =>
          simp only [betterMin] at h
          by_cases hgt : (tasks d0).phase > (tasks e0.task).phase
          · rw [if_pos hgt] at h
            rcases ih _ d h with hacc | ⟨e, he, hme, het, hphase⟩
            · simp only at hacc
              cases hacc
              exact Or.inr ⟨e0, List.mem_cons_self e0 rest, hm0, rfl, hp0⟩
            · exact Or.inr ⟨e, List.mem_cons_of_mem e0 he, hme, het, hphase⟩
          · rw [if_neg hgt] at h
            rcases ih _ d h with hacc | ⟨e, he, hme, het, hphase⟩
            · exact Or.inl hacc
            · exact Or.inr ⟨e, List.mem_cons_of_mem e0 he, hme, het, hphase⟩
      · simp only [select_candidates] at h
        rw [if_pos hm0, if_neg hp0] at h
        rcases ih _ d h with hacc | ⟨e, he, hme, het, hphase⟩
        · exact Or.inl hacc
        · exact Or.inr ⟨e, List.mem_cons_of_mem e0 he, hme, het, hphase⟩
    · simp only [select_candidates] at h
      rw [if_neg hm0] at h
      rcases ih _ d h with hacc | ⟨e, he, hme, het, hphase⟩
      · exact Or.inl hacc
      · exact Or.inr ⟨e, List.mem_cons_of_mem e0 he, hme, het, hphase⟩

theorem select_cand_mono (tasks : TaskStore) (rdep : DephashElem)
    (bucket : List DephashElem) :
    ∀ (acc : Option Nat × Option Nat) (c0 : Nat), acc.1 = some c0 →
      ∃ c, (select_candidates tasks rdep bucket acc).1 = some c ∧
        (tasks c0).phase ≤ (tasks c).phase := by
  induction bucket with
  | nil =>
    intro acc c0 h
    exact ⟨c0, by simp [select_candidates, h], le_refl _⟩
  | cons e rest ih =>
    intro acc c0 h
    obtain ⟨cand, dir⟩ := acc
    simp only at h
    subst h
    simp only [select_candidates]
    by_cases hm : remoteMatch tasks rdep e = true
    · rw [if_pos hm]
      by_cases hp : (tasks e.task).phase ≥ rdep.phase
      · rw [if_pos hp]
        exact ih _ c0 rfl
      · rw [if_neg hp]
        simp only [betterMax]
        by_cases hgt : (tasks e.task).phase > (tasks c0).phase
        · rw [if_pos hgt]
          obtain ⟨c, hc, hle⟩ := ih (some e.task, dir) e.task rfl
          exact ⟨c, hc, le_trans (le_of_lt hgt) hle⟩
        · rw [if_neg hgt]
          exact ih (some c0, dir) c0 rfl
    · rw [if_neg hm]
      exact ih (some c0, dir) c0 rfl

theorem select_cand_max (tasks : TaskStore) (rdep : DephashElem)
    (bucket : List DephashElem) :
    ∀ (acc : Option Nat × Option Nat) (e : DephashElem), e ∈ bucket →
      remoteMatch tasks rdep e = true →
      (tasks e.task).phase < rdep.phase →
      ∃ c, (select_candidates tasks rdep bucket acc).1 = some c ∧
        (tasks e.task).phase ≤ (tasks c).phase := by
  induction bucket with
  | nil =>
    intro acc e he
    exact absurd he (List.not_mem_nil e)
  | cons e0 rest ih =>
    intro acc e he hm hp
    obtain ⟨cand, dir⟩ := acc
    rcases List.mem_cons.mp he with rfl | hmem
    · simp only [select_candidates]
      rw [if_pos hm, if_neg (not_le.mpr hp)]
      cases cand with
      | none =>
        simp only [betterMax]
        exact select_cand_mono tasks rdep rest (some e.task, dir) e.task rfl
      | some c0 =>
        simp only [betterMax]
        by_cases hgt : (tasks e.task).phase > (tasks c0).phase
        · rw [if_pos hgt]
          exact select_cand_mono tasks rdep rest (some e.task, dir) e.task rfl
        · rw [if_neg hgt]
          obtain ⟨c, hc, hle⟩ :=
            select_cand_mono tasks rdep rest (some c0, dir) c0 rfl
          exact ⟨c, hc, le_trans (not_lt.mp hgt) hle⟩
    · simp only [select_candidates]
      by_cases hm0 : remoteMatch tasks rdep e0 = true
      · rw [if_pos hm0]
        by_cases hp0 : (tasks e0.task).phase ≥ rdep.phase
        · rw [if_pos hp0]
          exact ih _ e hmem hm hp
        · rw [if_neg hp0]
          exact ih _ e hmem hm hp
      · rw [if_neg hm0]
        exact ih _ e hmem hm hp

theorem select_cand_none (tasks : TaskStore) (rdep : DephashElem)
    (bucket : List DephashElem) :
    ∀ (acc : Option Nat × Option Nat),
      (select_candidates tasks rdep bucket acc).1 = none →
      acc.1 = none ∧ ∀ e ∈ bucket, remoteMatch tasks rdep e = true →
        rdep.phase ≤ (tasks e.task).phase := by
  induction bucket with
  | nil =>
    intro acc h
    refine ⟨by simpa [select_candidates] using h, ?_⟩
    intro e he
    exact absurd he (List.not_mem_nil e)
  | cons e0 rest ih =>
    intro acc h
    obtain ⟨cand, dir⟩ := acc
    by_cases hm0 : remoteMatch tasks rdep e0 = true
    · by_cases hp0 : (tasks e0.task).phase ≥ rdep.phase
      · simp only [select_candidates] at h
        rw [if_pos hm0, if_pos hp0] at h
        obtain ⟨hacc, hrest⟩ := ih _ h
        refine ⟨hacc, ?_⟩
        intro e he hme
        rcases List.mem_cons.mp he with rfl | hmem
        · exact hp0
        · exact hrest e hmem hme
      · exfalso
        simp only [select_candidates] at h
        rw [if_pos hm0, if_neg hp0] at h
        cases cand with
        | none =>
          simp only [betterMax] at h
          obtain ⟨c, hc, _⟩ :=
            select_cand_mono tasks rdep rest (some e0.task, dir) e0.task rfl
          rw [h] at hc
          exact Option.noConfusion hc
        | some c0 =>
          simp only [betterMax] at h
          by_cases hgt : (tasks e0.task).phase > (tasks c0).phase
          · rw [if_pos hgt] at h
            obtain ⟨c, hc, _⟩ :=
              select_cand_mono tasks rdep rest (some e0.task, dir) e0.task
                rfl
            rw [h] at hc
            exact Option.noConfusion hc
          · rw [if_neg hgt] at h
            obtain ⟨c, hc, _⟩ :=
              select_cand_mono tasks rdep rest (some c0, dir) c0 rfl
            rw [h] at hc
            exact Option.noConfusion hc
    · simp only [select_candidates] at h
      rw [if_neg hm0] at h
      obtain ⟨hacc, hrest⟩ := ih _ h
      refine ⟨hacc, ?_⟩
      intro e he hme
      rcases List.mem_cons.mp he with rfl | hmem
      · exact absurd hme hm0
      · exact hrest e hmem hme

theorem select_cand_mem (tasks : TaskStore) (rdep : DephashElem)
    (bucket : List DephashElem) :
    ∀ (acc : Option Nat × Option Nat) (c : Nat),
      (select_candidates tasks rdep bucket acc).1 = some c →
      acc.1 = some c ∨
      ∃ e ∈ bucket, remoteMatch tasks rdep e = true ∧ e.task = c ∧
        (tasks c).phase < rdep.phase := by
  induction bucket with
  | nil =>
    intro acc c h
    exact Or.inl (by simpa [select_candidates] using h)
  | cons e0 rest ih =>
    intro acc c h
    obtain ⟨cand, dir⟩ := acc
    by_cases hm0 : remoteMatch tasks rdep e0 = true
    · by_cases hp0 : (tasks e0.task).phase ≥ rdep.phase
      · simp only [select_candidates] at h
        rw [if_pos hm0, if_pos hp0] at h
        rcases ih _ c h with hacc | ⟨e, he, hme, het, hphase⟩
        · exact Or.inl hacc
        · exact Or.inr ⟨e, List.mem_cons_of_mem e0 he, hme, het, hphase⟩
      · simp only [select_candidates] at h
        rw [if_pos hm0, if_neg hp0] at h
        cases cand with
        | none =>
          simp only [betterMax] at h
          rcases ih _ c h with hacc | ⟨e, he, hme, het, hphase⟩
          · simp only at hacc
            cases hacc
            exact Or.inr ⟨e0, List.mem_cons_self e0 rest, hm0, rfl,
              not_le.mp hp0⟩
          · exact Or.inr ⟨e, List.mem_cons_of_mem e0 he, hme, het, hphase⟩
        | some c0 =>
          simp only [betterMax] at h
          by_cases hgt : (tasks e0.task).phase > (tasks c0).phase
          · rw [if_pos hgt] at h
            rcases ih _ c h with hacc | ⟨e, he, hme, het, hphase⟩
            · simp only at hacc
              cases hacc
              exact Or.inr ⟨e0, List.mem_cons_self e0 rest, hm0, rfl,
                not_le.mp hp0⟩
            · exact Or.inr ⟨e, List.mem_cons_of_mem e0 he, hme, het, hphase⟩
          · rw [if_neg hgt] at h
            rcases ih _ c h with hacc | ⟨e, he, hme, het, hphase⟩
            · exact Or.inl hacc
            · exact Or.inr ⟨e, List.mem_cons_of_mem e0 he, hme, het, hphase⟩
    · simp only [select_candidates] at h
      rw [if_neg hm0] at h
      rcases ih _ c h with hacc | ⟨e, he, hme, het, hphase⟩
      · exact Or.inl hacc
      · exact Or.inr ⟨e, List.mem_cons_of_mem e0 he, hme, het, hphase⟩

/-- An inbound IN request from participant 3 for region 8 at phase 1. -/
def c2rdep : DephashElem :=
  { task := 77,
    taskdep := { type := DepType.IN, addr := 8, unitid := 3, depTask := none },
    phase := 1 }

/-- A bucket record: task 5 wrote region 8 in phase 0. -/
def c2elem : DephashElem :=
  { task := 5,
    taskdep := { type := DepType.OUT, addr := 8, unitid := 0, depTask := none },
    phase := 0 }

/-- A state whose only matching record for region 8 belongs to a task in
TEARDOWN state. -/
def c2state : TaskingState :=
  { blankState with
    tasks := fun t => if t = 0 then rootTask
      else if t = 5 then { blankTask with state := TaskState.TEARDOWN }
      else blankTask,
    localDeps := fun slot => if slot = hash_gptr 8 then [c2elem] else [] }

/-- C2 counterexample: task 5 holds a matching OUT-like record, is not
FINISHED (it is in TEARDOWN) and lies in a phase below the request's, so
the claim makes it the fulfillment candidate and expects the request to
be attached to its remote_successors; the code, however, filters on
IS_ACTIVE_TASK (CREATED or RUNNING), selects no candidate at all, sends
an immediate release to the origin and recycles the record, leaving
task 5 untouched. -/
theorem c2_counterexample :
    (c2state.tasks 5).state ≠ TaskState.FINISHED ∧
    IS_OUT_DEP c2elem.taskdep.type = true ∧
    c2elem.taskdep.addr = c2rdep.taskdep.addr ∧
    (c2state.tasks 5).phase < c2rdep.phase ∧
    c2state.localDeps (hash_gptr c2rdep.taskdep.addr) = [c2elem] ∧
    select_candidates c2state.tasks c2rdep
      (c2state.localDeps (hash_gptr c2rdep.taskdep.addr)) (none, none) =
      (none, none) ∧
    (handle_unhandled_rdep c2state c2rdep).2 =
      [RemoteAction.remoteRelease 3 77 c2rdep.taskdep,
       RemoteAction.recycleElem] ∧
    (handle_unhandled_rdep c2state c2rdep).1.tasks 5 = c2state.tasks 5 := by
  refine ⟨by decide, by decide, by decide, by decide, by decide, by decide,
    ?_, ?_⟩ <;> decide

/-- C2 (amended): among the matching OUT-like *active* (CREATED or
RUNNING) tasks of the requested region's bucket, the direct-dep
candidate is one of them with the smallest phase among those with phase
at least the request's (a direct task-dependency message is sent for it
and its unresolved_deps incremented), the fulfillment candidate is one
of them with the largest phase among those with phase below the
request's (the request record is prepended to its remote_successors);
when no direct-dep candidate exists every matching active task lies
below the request's phase, and when no fulfillment candidate exists an
immediate release is sent to the origin and the record recycled. -/
theorem c2_amended_release_unhandled (s : TaskingState)
    (rdep : DephashElem) :
    (∀ d,
      (select_candidates s.tasks rdep
          (s.localDeps (hash_gptr rdep.taskdep.addr)) (none, none)).2 =
        some d →
      (∃ e ∈ s.localDeps (hash_gptr rdep.taskdep.addr),
          remoteMatch s.tasks rdep e = true ∧ e.task = d) ∧
      rdep.phase ≤ (s.tasks d).phase ∧
      (∀ e ∈ s.localDeps (hash_gptr rdep.taskdep.addr),
          remoteMatch s.tasks rdep e = true →
          rdep.phase ≤ (s.tasks e.task).phase →
          (s.tasks d).phase ≤ (s.tasks e.task).phase) ∧
      RemoteAction.directTaskdep rdep.taskdep.unitid d rdep.task ∈
        (handle_unhandled_rdep s rdep).2 ∧
      ((handle_unhandled_rdep s rdep).1.tasks d).unresolvedDeps =
        (s.tasks d).unresolvedDeps + 1) ∧
    ((select_candidates s.tasks rdep
        (s.localDeps (hash_gptr rdep.taskdep.addr)) (none, none)).2 =
          none →
      ∀ e ∈ s.localDeps (hash_gptr rdep.taskdep.addr),
        remoteMatch s.tasks rdep e = true →
        (s.tasks e.task).phase < rdep.phase) ∧
    (∀ c,
      (select_candidates s.tasks rdep
          (s.localDeps (hash_gptr rdep.taskdep.addr)) (none, none)).1 =
        some c →
      (∃ e ∈ s.localDeps (hash_gptr rdep.taskdep.addr),
          remoteMatch s.tasks rdep e = true ∧ e.task = c) ∧
      (s.tasks c).phase < rdep.phase ∧
      (∀ e ∈ s.localDeps (hash_gptr rdep.taskdep.addr),
          remoteMatch s.tasks rdep e = true →
          (s.tasks e.task).phase < rdep.phase →
          (s.tasks e.task).phase ≤ (s.tasks c).phase) ∧
      ((handle_unhandled_rdep s rdep).1.tasks c).remoteSuccessor =
        rdep :: (s.tasks c).remoteSuccessor) ∧
    ((select_candidates s.tasks rdep
        (s.localDeps (hash_gptr rdep.taskdep.addr)) (none, none)).1 =
          none →
      RemoteAction.remoteRelease rdep.taskdep.unitid rdep.task
          rdep.taskdep ∈ (handle_unhandled_rdep s rdep).2 ∧
      RemoteAction.recycleElem ∈ (handle_unhandled_rdep s rdep).2) := by
  rcases hsel : select_candidates s.tasks rdep
      (s.localDeps (hash_gptr rdep.taskdep.addr)) (none, none) with ⟨cand, dir⟩
  refine ⟨?_, ?_, ?_, ?_⟩
  · intro d hd
    simp only at hd
    subst hd
    have hmem := select_direct_mem s.tasks rdep
      (s.localDeps (hash_gptr rdep.taskdep.addr)) (none, none) d
      (by rw [hsel])
    rcases hmem with h0 | ⟨e, he, hme, het, hph⟩
    · exact absurd h0 (by simp)
    refine ⟨⟨e, he, hme, het⟩, hph, ?_, ?_, ?_⟩
    · intro e2 he2 hme2 hpe2
      obtain ⟨d2, hd2, hle⟩ := select_direct_min s.tasks rdep
        (s.localDeps (hash_gptr rdep.taskdep.addr)) (none, none)
        e2 he2 hme2 hpe2
      rw [hsel] at hd2
      simp only at hd2
      cases hd2
      exact hle
    · simp only [handle_unhandled_rdep, hsel]
      cases cand <;> simp
    · simp only [handle_unhandled_rdep, hsel]
      cases cand with
      | none => simp [updateTask]
      | some c =>
        by_cases hdc : c = d
        · subst hdc
          simp [updateTask]
        · have hne : d ≠ c := fun h => hdc h.symm
          simp [updateTask, hne, hdc]
  · intro hd
    simp only at hd
    subst hd
    intro e he hme
    exact (select_direct_none s.tasks rdep
      (s.localDeps (hash_gptr rdep.taskdep.addr)) (none, none)
      (by rw [hsel])).2 e he hme
  · intro c hc
    simp only at hc
    subst hc
    have hmem := select_cand_mem s.tasks rdep
      (s.localDeps (hash_gptr rdep.taskdep.addr)) (none, none) c
      (by rw [hsel])
    rcases hmem with h0 | ⟨e, he, hme, het, hph⟩
    · exact absurd h0 (by simp)
    refine ⟨⟨e, he, hme, het⟩, hph, ?_, ?_⟩
    · intro e2 he2 hme2 hpe2
      obtain ⟨c2, hc2, hle⟩ := select_cand_max s.tasks rdep
        (s.localDeps (hash_gptr rdep.taskdep.addr)) (none, none)
        e2 he2 hme2 hpe2
      rw [hsel] at hc2
      simp only at hc2
      cases hc2
      exact hle
    · simp only [handle_unhandled_rdep, hsel]
      cases dir with
      | none => simp [updateTask]
      | some d =>
        by_cases hdc : c = d
        · subst hdc
          simp [updateTask]
        · simp [updateTask, hdc]
  · intro hc
    simp only at hc
    subst hc
    simp only [handle_unhandled_rdep, hsel]
    cases dir <;> simp

/-- An OUT record on region 8 for the C2 witness scenario. -/
def c2wE (t ph : Nat) : DephashElem :=
  { task := t,
    taskdep := { type := DepType.OUT, addr := 8, unitid := 0, depTask := none },
    phase := ph }

/-- Three active writers of region 8 in phases 0, 1 and 2. -/
def c2wstate : TaskingState :=
  { blankState with
    tasks := fun t => if t = 0 then rootTask
      else if t = 2 then { blankTask with phase := 1 }
      else if t = 3 then { blankTask with phase := 2 }
      else blankTask,
    localDeps := fun slot => if slot = hash_gptr 8 then
        [c2wE 1 0, c2wE 2 1, c2wE 3 2]
      else [] }

/-- The inbound IN request of the witness: region 8, phase 1, origin 3. -/
def c2wrdep : DephashElem :=
  { task := 77,
    taskdep := { type := DepType.IN, addr := 8, unitid := 3, depTask := none },
    phase := 1 }

theorem c2_amended_release_unhandled_witness :
    select_candidates c2wstate.tasks c2wrdep
      (c2wstate.localDeps (hash_gptr c2wrdep.taskdep.addr)) (none, none) =
      (some 1, some 2) ∧
    (c2wstate.tasks 2).phase ≤ (c2wstate.tasks 3).phase ∧
    RemoteAction.directTaskdep 3 2 77 ∈
      (handle_unhandled_rdep c2wstate c2wrdep).2 ∧
    ((handle_unhandled_rdep c2wstate c2wrdep).1.tasks 2).unresolvedDeps =
      (c2wstate.tasks 2).unresolvedDeps + 1 ∧
    ((handle_unhandled_rdep c2wstate c2wrdep).1.tasks 1).remoteSuccessor =
      c2wrdep :: (c2wstate.tasks 1).remoteSuccessor := by
  have h := c2_amended_release_unhandled c2wstate c2wrdep
  have hsel : select_candidates c2wstate.tasks c2wrdep
      (c2wstate.localDeps (hash_gptr c2wrdep.taskdep.addr)) (none, none) =
      (some 1, some 2) := by decide
  obtain ⟨h1, _, h3, _⟩ := h
  have hd := h1 2 (by rw [hsel])
  have hc := h3 1 (by rw [hsel])
  refine ⟨hsel, ?_, hd.2.2.2.1, hd.2.2.2.2, hc.2.2.2⟩
  exact hd.2.2.1 (c2wE 3 2) (by decide) (by decide) (by decide)

theorem enqueue_runnable_only_threads (s : TaskingState) (tid t : Nat) :
    (dart__tasking__enqueue_runnable s tid t).tasks = s.tasks ∧
    (dart__tasking__enqueue_runnable s tid t).phaseBound = s.phaseBound ∧
    (dart__tasking__enqueue_runnable s tid t).deferredReleases =
      s.deferredReleases ∧
    (dart__tasking__enqueue_runnable s tid t).localDeps = s.localDeps ∧
    (dart__tasking__enqueue_runnable s tid t).unhandledRemote =
      s.unhandledRemote := by
  unfold dart__tasking__enqueue_runnable setThread
  split <;> exact ⟨rfl, rfl, rfl, rfl, rfl⟩

theorem release_deferred_one_shape (s : TaskingState) (tid : Nat)
    (elem : DephashElem) :
    release_deferred_one s tid elem =
      ({ s with tasks := updateTask s.tasks elem.task (fun t => { t with unresolvedDeps := (s.tasks elem.task).unresolvedDeps - 1 }) },
       [⟨elem.task, s.phaseBound, true⟩]) ∨
    release_deferred_one s tid elem =
      (dart__tasking__enqueue_runnable { s with tasks := updateTask s.tasks elem.task (fun t => { t with unresolvedDeps := (s.tasks elem.task).unresolvedDeps - 1 }) } tid elem.task,
       [⟨elem.task, s.phaseBound, true⟩]) := by
  unfold release_deferred_one
  by_cases h1 : (s.tasks elem.task).unresolvedDeps - 1 < 0
  · left
    simp [h1]
  · by_cases h2 : (s.tasks elem.task).unresolvedDeps - 1 = 0
    · right
      simp [h1, h2]
    · left
      simp [h1, h2]

theorem release_deferred_one_fields (s : TaskingState) (tid : Nat)
    (elem : DephashElem) :
    (∀ u, ((release_deferred_one s tid elem).1.tasks u).phase =
      (s.tasks u).phase) ∧
    (release_deferred_one s tid elem).1.phaseBound = s.phaseBound ∧
    (release_deferred_one s tid elem).1.deferredReleases =
      s.deferredReleases ∧
    (release_deferred_one s tid elem).1.localDeps = s.localDeps ∧
    (release_deferred_one s tid elem).1.unhandledRemote =
      s.unhandledRemote ∧
    (release_deferred_one s tid elem).2 =
      [⟨elem.task, s.phaseBound, true⟩] := by
  have E := enqueue_runnable_only_threads { s with tasks := updateTask s.tasks elem.task (fun t => { t with unresolvedDeps := (s.tasks elem.task).unresolvedDeps - 1 }) } tid elem.task
  rcases release_deferred_one_shape s tid elem with h | h <;> rw [h]
  · refine ⟨fun u => ?_, rfl, rfl, rfl, rfl, rfl⟩
    simp only [updateTask]
    split <;> rfl
  · obtain ⟨e1, e2, e3, e4, e5⟩ := E
    refine ⟨fun u => ?_, e2, e3, e4, e5, rfl⟩
    rw [e1]
    simp only [updateTask]
    split <;> rfl

theorem drain_deferred_props (tid : Nat) :
    ∀ (lst : List DephashElem) (s : TaskingState),
      (∀ u, ((drain_deferred tid s lst).1.tasks u).phase =
        (s.tasks u).phase) ∧
      (drain_deferred tid s lst).1.phaseBound = s.phaseBound ∧
      (drain_deferred tid s lst).1.deferredReleases = s.deferredReleases ∧
      (∀ ev ∈ (drain_deferred tid s lst).2, ev.viaDeferred = true ∧
        ev.task ∈ lst.map (fun e => e.task)) := by
  intro lst
  induction lst with
  | nil =>
    intro s
    exact ⟨fun u => rfl, rfl, rfl, fun ev hev => absurd hev
      (List.not_mem_nil ev)⟩
  | cons elem rest ih =>
    intro s
    obtain ⟨h1, h2, h3, h4, h5, h6⟩ := release_deferred_one_fields s tid elem
    obtain ⟨i1, i2, i3, i4⟩ := ih (release_deferred_one s tid elem).1
    simp only [drain_deferred]
    refine ⟨fun u => (i1 u).trans (h1 u), i2.trans h2, i3.trans h3, ?_⟩
    intro ev hev
    rcases List.mem_append.mp hev with hl | hr
    · rw [h6] at hl
      rcases List.mem_singleton.mp hl with rfl
      exact ⟨rfl, by simp⟩
    · obtain ⟨hvia, htask⟩ := i4 ev hr
      exact ⟨hvia, List.mem_cons_of_mem _ htask⟩

theorem handle_unhandled_rdep_fields (s : TaskingState)
    (rdep : DephashElem) :
    (∀ u, ((handle_unhandled_rdep s rdep).1.tasks u).phase =
      (s.tasks u).phase) ∧
    (handle_unhandled_rdep s rdep).1.phaseBound = s.phaseBound ∧
    (handle_unhandled_rdep s rdep).1.deferredReleases =
      s.deferredReleases ∧
    (handle_unhandled_rdep s rdep).1.localDeps = s.localDeps ∧
    (handle_unhandled_rdep s rdep).1.threads = s.threads ∧
    (handle_unhandled_rdep s rdep).1.unhandledRemote = s.unhandledRemote ∧
    (∀ u, ((handle_unhandled_rdep s rdep).1.tasks u).numChildren =
      (s.tasks u).numChildren) := by
  rcases hsel : select_candidates s.tasks rdep
      (s.localDeps (hash_gptr rdep.taskdep.addr)) (none, none) with ⟨cand, dir⟩
  simp only [handle_unhandled_rdep, hsel]
  cases cand with
  | none =>
    cases dir with
    | none => exact ⟨fun u => rfl, rfl, rfl, rfl, rfl, rfl, fun u => rfl⟩
    | some d =>
      refine ⟨fun u => ?_, rfl, rfl, rfl, rfl, rfl, fun u => ?_⟩ <;>
        (simp only [updateTask]; split <;> rfl)
  | some c =>
    cases dir with
    | none =>
      refine ⟨fun u => ?_, rfl, rfl, rfl, rfl, rfl, fun u => ?_⟩ <;>
        (simp only [updateTask]; split <;> rfl)
    | some d =>
      refine ⟨fun u => ?_, rfl, rfl, rfl, rfl, rfl, fun u => ?_⟩ <;>
        (simp only [updateTask]; split <;> (try split) <;> rfl)

theorem drain_unhandled_fields :
    ∀ (lst : List DephashElem) (s : TaskingState),
      (∀ u, ((drain_unhandled s lst).1.tasks u).phase =
        (s.tasks u).phase) ∧
      (drain_unhandled s lst).1.phaseBound = s.phaseBound ∧
      (drain_unhandled s lst).1.deferredReleases = s.deferredReleases ∧
      (drain_unhandled s lst).1.threads = s.threads ∧
      (∀ u, ((drain_unhandled s lst).1.tasks u).numChildren =
        (s.tasks u).numChildren) := by
  intro lst
  induction lst with
  | nil =>
    intro s
    exact ⟨fun u => rfl, rfl, rfl, rfl, fun u => rfl⟩
  | cons rdep rest ih =>
    intro s
    obtain ⟨h1, h2, h3, _, h5, _, h7⟩ := handle_unhandled_rdep_fields s rdep
    obtain ⟨i1, i2, i3, i4, i5⟩ := ih (handle_unhandled_rdep s rdep).1
    simp only [drain_unhandled]
    exact ⟨fun u => (i1 u).trans (h1 u), i2.trans h2, i3.trans h3,
      i4.trans h5, fun u => (i5 u).trans (h7 u)⟩

theorem release_unhandled_remote_fields (s : TaskingState) (tid : Nat) :
    (∀ u, ((dart_tasking_datadeps_release_unhandled_remote s tid).1.tasks
        u).phase = (s.tasks u).phase) ∧
    (dart_tasking_datadeps_release_unhandled_remote s tid).1.phaseBound =
      s.phaseBound ∧
    (dart_tasking_datadeps_release_unhandled_remote s
        tid).1.deferredReleases = [] ∧
    (∀ ev ∈ (dart_tasking_datadeps_release_unhandled_remote s tid).2.2,
      ev.viaDeferred = true ∧
      ev.task ∈ s.deferredReleases.map (fun e => e.task)) := by
  unfold dart_tasking_datadeps_release_unhandled_remote
    release_deferred_remote_releases
  obtain ⟨u1, u2, u3, u4, u5⟩ :=
    drain_unhandled_fields s.unhandledRemote s
  set s2 : TaskingState :=
    { (drain_unhandled s s.unhandledRemote).1 with unhandledRemote := [] }
    with hs2
  obtain ⟨d1, d2, d3, d4⟩ := drain_deferred_props tid s2.deferredReleases s2
  refine ⟨fun u => ?_, ?_, rfl, ?_⟩
  · exact (d1 u).trans (u1 u)
  · exact d2.trans u2
  · intro ev hev
    obtain ⟨hvia, htask⟩ := d4 ev hev
    refine ⟨hvia, ?_⟩
    have : s2.deferredReleases = s.deferredReleases := u3
    rwa [this] at htask

theorem release_successors_phaseBound (tid : Nat) :
    ∀ (l : List Nat) (s : TaskingState),
      (release_successors tid s l).1.phaseBound = s.phaseBound := by
  intro l
  induction l with
  | nil => intro s; rfl
  | cons v rest ih =>
    intro s
    simp only [release_successors]
    by_cases h1 : (s.tasks v).unresolvedDeps - 1 < 0
    · simp only [if_pos h1]
      exact (ih _).trans rfl
    · simp only [if_neg h1]
      by_cases h2 : (s.tasks v).unresolvedDeps - 1 = 0
      · simp only [if_pos h2]
        exact (ih _).trans
          (((enqueue_runnable_only_threads _ tid v).2.1).trans rfl)
      · simp only [if_neg h2]
        exact (ih _).trans rfl

theorem release_local_task_phaseBound (s : TaskingState) (tid task : Nat) :
    (dart_tasking_datadeps_release_local_task s tid task).1.phaseBound =
      s.phaseBound := by
  unfold dart_tasking_datadeps_release_local_task
  exact (release_successors_phaseBound tid _ _).trans rfl

theorem handle_task_exec_phaseBound (s : TaskingState) (tid : Nat)
    (ot : Option Nat) :
    (handle_task_exec s tid ot).phaseBound = s.phaseBound := by
  cases ot with
  | none => rfl
  | some task =>
    simp only [handle_task_exec]
    split
    · exact release_local_task_phaseBound _ tid task
    · exact release_local_task_phaseBound _ tid task

theorem next_task_steal_phaseBound (s : TaskingState) :
    ∀ l, ((next_task_steal s l).2).phaseBound = s.phaseBound := by
  intro l
  induction l with
  | nil => rfl
  | cons i rest ih =>
    simp only [next_task_steal]
    rcases h : taskqueue_popback (getThread s i).queue with ⟨ot, q⟩
    cases ot with
    | none =>
      simp only [h]
      exact ih
    | some t =>
      simp only [h]
      rfl

theorem next_task_phaseBound (s : TaskingState) (tid : Nat) :
    ((next_task s tid).2).phaseBound = s.phaseBound := by
  simp only [next_task]
  rcases h : taskqueue_pop (getThread s tid).queue with ⟨ot, q⟩
  cases ot with
  | none =>
    simp only [h]
    exact next_task_steal_phaseBound s _
  | some t =>
    simp only [h]
    rfl

theorem completeLoop_phaseBound (tid curTask : Nat) :
    ∀ (fuel : Nat) (s s2 : TaskingState),
      completeLoop tid curTask fuel s = some s2 →
      s2.phaseBound = s.phaseBound := by
  intro fuel
  induction fuel with
  | zero =>
    intro s s2 h
    simp only [completeLoop] at h
    split at h
    · exact Option.noConfusion h
    · obtain rfl := Option.some.inj h
      rfl
  | succ fuel ih =>
    intro s s2 h
    simp only [completeLoop] at h
    split at h
    · have h2 := ih _ _ h
      rw [h2, handle_task_exec_phaseBound, next_task_phaseBound]
    · obtain rfl := Option.some.inj h
      rfl

/-- A state in which two phase() calls have happened (root phase 2) but
phase_bound is still 0, and task 1 of phase 2 waits for one remote
release. -/
def c3state : TaskingState :=
  { blankState with
    tasks := fun t => if t = 0 then { rootTask with phase := 2 }
      else if t = 1 then { blankTask with phase := 2, unresolvedDeps := 1 }
      else blankTask }

/-- C3 counterexample: a remote release for task 1 (phase 2) arrives
while phase_bound = 0 and is parked; the next root task_complete drains
the deferred list and decrements the task's unresolved_deps at a moment
when phase_bound is still 0 — before the same call advances phase_bound
to the root phase 2 — so the decrement does happen while phase_bound
(0) is below the task's phase (2). -/
theorem c3_counterexample :
    c3state.phaseBound = 0 ∧
    (c3state.tasks 1).phase = 2 ∧
    (dart_tasking_datadeps_release_remote_dep c3state 0 1).2 = [] ∧
    ((dart_tasking_datadeps_release_remote_dep c3state
        0 1).1.deferredReleases.map (fun e => e.task)) = [1] ∧
    (dart__tasking__task_complete
        (dart_tasking_datadeps_release_remote_dep c3state 0 1).1 0 0 1).map
      (fun r => r.2.2) = some [⟨1, 0, true⟩] ∧
    (dart__tasking__task_complete
        (dart_tasking_datadeps_release_remote_dep c3state 0 1).1 0 0 1).map
      (fun r => (r.2.1.tasks 1).unresolvedDeps) = some 0 ∧
    (0 : Nat) < 2 := by
  refine ⟨rfl, by decide, by decide, by decide, ?_, ?_, by decide⟩ <;> decide

/-- The state the root task_complete hands to its inner loop: unhandled
remote requests resolved, deferred releases drained, phase_bound set to
the root phase, and the defered queue spliced into the runnable queue. -/
def rootPreState (s : TaskingState) : TaskingState :=
  let p := dart_tasking_datadeps_release_unhandled_remote s 0
  let sb := { p.1 with phaseBound := (p.1.tasks 0).phase }
  let th := getThread sb 0
  setThread sb 0
    { th with queue := th.deferedQueue ++ th.queue, deferedQueue := [] }

theorem task_complete_root_eq (s : TaskingState) (fuel : Nat) :
    dart__tasking__task_complete s 0 0 fuel =
      match completeLoop 0 0 fuel (rootPreState s) with
      | none => none
      | some s3 =>
        some (DartRet.OK,
          { dart_tasking_datadeps_reset s3 with
              taskFree := (dart_tasking_datadeps_reset s3).taskRecycle,
              taskRecycle := [] },
          (dart_tasking_datadeps_release_unhandled_remote s 0).2.2) := rfl

theorem rootPreState_phaseBound (s : TaskingState) :
    (rootPreState s).phaseBound = (s.tasks 0).phase :=
  (release_unhandled_remote_fields s 0).1 0

/-- C3 (amended): parking a remote release (target phase beyond
phase_bound) performs no decrement at all; an immediate remote release
decrements only when phase_bound has already reached the task's phase;
and a parked release is decremented only inside the root task_complete
drain — that same invocation advances phase_bound to the root phase,
which bounds the drained task's phase, but the decrement itself is
performed just before the bound is updated. -/
theorem c3_amended_deferred_release (s : TaskingState)
    (tid local_task fuel : Nat) (ret : DartRet) (s2 : TaskingState)
    (log : List DecEvent)
    (hwf : ∀ e ∈ s.deferredReleases,
      (s.tasks e.task).phase ≤ (s.tasks 0).phase) :
    ((s.tasks local_task).phase > s.phaseBound →
      (dart_tasking_datadeps_release_remote_dep s tid local_task).2 = [] ∧
      ((dart_tasking_datadeps_release_remote_dep s tid
          local_task).1.tasks local_task).unresolvedDeps =
        (s.tasks local_task).unresolvedDeps) ∧
    (∀ ev ∈ (dart_tasking_datadeps_release_remote_dep s tid local_task).2,
      ev.viaDeferred = false ∧ (s.tasks ev.task).phase ≤ ev.pbAtDec) ∧
    (dart__tasking__task_complete s 0 0 fuel = some (ret, s2, log) →
      s2.phaseBound = (s.tasks 0).phase ∧
      ∀ ev ∈ log, ev.viaDeferred = true ∧
        (s.tasks ev.task).phase ≤ s2.phaseBound) := by
  refine ⟨?_, ?_, ?_⟩
  · intro hgt
    refine ⟨?_, ?_⟩ <;>
      simp [dart_tasking_datadeps_release_remote_dep, if_pos hgt]
  · intro ev hev
    by_cases hgt : (s.tasks local_task).phase > s.phaseBound
    · simp only [dart_tasking_datadeps_release_remote_dep, if_pos hgt] at hev
      exact absurd hev (List.not_mem_nil ev)
    · simp only [dart_tasking_datadeps_release_remote_dep,
        if_neg hgt] at hev
      rcases List.mem_singleton.mp hev with rfl
      exact ⟨rfl, not_lt.mp hgt⟩
  · intro h
    obtain ⟨r1, r2, r3, r4⟩ := release_unhandled_remote_fields s 0
    rw [task_complete_root_eq] at h
    rcases hloop : completeLoop 0 0 fuel (rootPreState s) with _ | s3
    · rw [hloop] at h
      exact Option.noConfusion h
    · rw [hloop] at h
      simp only [Option.some.injEq, Prod.mk.injEq] at h
      obtain ⟨hret, hs2, hlog⟩ := h
      have h3 := completeLoop_phaseBound 0 0 fuel _ _ hloop
      have hpb : s2.phaseBound = (s.tasks 0).phase := by
        rw [← hs2]
        exact h3.trans (rootPreState_phaseBound s)
      refine ⟨hpb, ?_⟩
      intro ev hev
      rw [← hlog] at hev
      obtain ⟨hvia, htask⟩ := r4 ev hev
      refine ⟨hvia, ?_⟩
      rw [hpb]
      obtain ⟨e, he, hetask⟩ := List.mem_map.mp htask
      rw [← hetask]
      exact hwf e he

theorem c3_amended_deferred_release_witness :
    (c3state.tasks 1).phase > c3state.phaseBound ∧
    (dart_tasking_datadeps_release_remote_dep c3state 0 1).2 = [] ∧
    ((dart_tasking_datadeps_release_remote_dep c3state
        0 1).1.tasks 1).unresolvedDeps =
      (c3state.tasks 1).unresolvedDeps := by
  have h := c3_amended_deferred_release c3state 0 1 1 DartRet.OK c3state []
    (fun e he => absurd he (List.not_mem_nil e))
  have hgt : (c3state.tasks 1).phase > c3state.phaseBound := by decide
  exact ⟨hgt, (h.1 hgt).1, (h.1 hgt).2⟩

/-- Whether a release action is an outbound remote release message. -/
def ReleaseAction.isRelease : ReleaseAction → Bool
  | ReleaseAction.remoteRelease _ _ _ => true
  | _ => false

theorem release_successors_untouched (tid : Nat) :
    ∀ (l : List Nat) (s : TaskingState) (u : Nat), u ∉ l →
      (release_successors tid s l).1.tasks u = s.tasks u := by
  intro l
  induction l with
  | nil => intro s u _; rfl
  | cons v rest ih =>
    intro s u hu
    have huv : u ≠ v := fun h => hu (h ▸ List.mem_cons_self v rest)
    have hur : u ∉ rest := fun h => hu (List.mem_cons_of_mem v h)
    simp only [release_successors]
    by_cases h1 : (s.tasks v).unresolvedDeps - 1 < 0
    · simp only [if_pos h1]
      rw [ih _ u hur]
      simp [updateTask, huv]
    · simp only [if_neg h1]
      by_cases h2 : (s.tasks v).unresolvedDeps - 1 = 0
      · simp only [if_pos h2]
        rw [ih _ u hur, (enqueue_runnable_only_threads _ tid v).1]
        simp [updateTask, huv]
      · simp only [if_neg h2]
        rw [ih _ u hur]
        simp [updateTask, huv]

theorem release_successors_enqueue_mem (tid : Nat) :
    ∀ (l : List Nat) (s : TaskingState) (u : Nat),
      ReleaseAction.enqueueRunnable u ∈ (release_successors tid s l).2 →
      u ∈ l := by
  intro l
  induction l with
  | nil =>
    intro s u h
    exact absurd h (List.not_mem_nil _)
  | cons v rest ih =>
    intro s u h
    simp only [release_successors] at h
    by_cases h1 : (s.tasks v).unresolvedDeps - 1 < 0
    · simp only [if_pos h1] at h
      rcases List.mem_append.mp h with hl | hr
      · rcases List.mem_cons.mp hl with heq | hl2
        · exact absurd heq (by simp)
        · rcases List.mem_singleton.mp hl2 with heq
          exact absurd heq (by simp)
      · exact List.mem_cons_of_mem v (ih _ u hr)
    · simp only [if_neg h1] at h
      by_cases h2 : (s.tasks v).unresolvedDeps - 1 = 0
      · simp only [if_pos h2] at h
        rcases List.mem_append.mp h with hl | hr
        · rcases List.mem_cons.mp hl with heq | hl2
          · cases heq
            exact List.mem_cons_self v rest
          · rcases List.mem_singleton.mp hl2 with heq
            exact absurd heq (by simp)
        · exact List.mem_cons_of_mem v (ih _ u hr)
      · simp only [if_neg h2] at h
        rcases List.mem_append.mp h with hl | hr
        · rcases List.mem_singleton.mp hl with heq
          exact absurd heq (by simp)
        · exact List.mem_cons_of_mem v (ih _ u hr)

theorem release_successors_defect_mem (tid : Nat) :
    ∀ (l : List Nat) (s : TaskingState) (u : Nat),
      ReleaseAction.defect u ∈ (release_successors tid s l).2 →
      u ∈ l := by
  intro l
  induction l with
  | nil =>
    intro s u h
    exact absurd h (List.not_mem_nil _)
  | cons v rest ih =>
    intro s u h
    simp only [release_successors] at h
    by_cases h1 : (s.tasks v).unresolvedDeps - 1 < 0
    · simp only [if_pos h1] at h
      rcases List.mem_append.mp h with hl | hr
      · rcases List.mem_cons.mp hl with heq | hl2
        · cases heq
          exact List.mem_cons_self v rest
        · rcases List.mem_singleton.mp hl2 with heq
          exact absurd heq (by simp)
      · exact List.mem_cons_of_mem v (ih _ u hr)
    · simp only [if_neg h1] at h
      by_cases h2 : (s.tasks v).unresolvedDeps - 1 = 0
      · simp only [if_pos h2] at h
        rcases List.mem_append.mp h with hl | hr
        · rcases List.mem_cons.mp hl with heq | hl2
          · exact absurd heq (by simp)
          · rcases List.mem_singleton.mp hl2 with heq
            exact absurd heq (by simp)
        · exact List.mem_cons_of_mem v (ih _ u hr)
      · simp only [if_neg h2] at h
        rcases List.mem_append.mp h with hl | hr
        · rcases List.mem_singleton.mp hl with heq
          exact absurd heq (by simp)
        · exact List.mem_cons_of_mem v (ih _ u hr)

theorem release_successors_spec (tid : Nat) :
    ∀ (l : List Nat) (s : TaskingState), l.Nodup →
      (∀ u ∈ l,
        ((release_successors tid s l).1.tasks u).unresolvedDeps =
          (s.tasks u).unresolvedDeps - 1 ∧
        (ReleaseAction.enqueueRunnable u ∈ (release_successors tid s l).2 ↔
          (s.tasks u).unresolvedDeps - 1 = 0) ∧
        (ReleaseAction.defect u ∈ (release_successors tid s l).2 ↔
          (s.tasks u).unresolvedDeps - 1 < 0)) ∧
      (release_successors tid s l).2.count ReleaseAction.deallocNode =
        l.length := by
  intro l
  induction l with
  | nil =>
    intro s _
    exact ⟨fun u hu => absurd hu (List.not_mem_nil u), rfl⟩
  | cons v rest ih =>
    intro s hnd
    obtain ⟨hv, hndr⟩ := List.nodup_cons.mp hnd
    by_cases h1 : (s.tasks v).unresolvedDeps - 1 < 0
    · simp only [release_successors, if_pos h1]
      refine ⟨?_, ?_⟩
      · intro u hu
        rcases List.mem_cons.mp hu with rfl | hur
        · refine ⟨?_, ?_, ?_⟩
          · rw [release_successors_untouched tid rest _ u hv]
            simp [updateTask]
          · constructor
            · intro hmem
              rcases List.mem_append.mp hmem with hl | hr
              · simp at hl
              · exact absurd
                  (release_successors_enqueue_mem tid rest _ u hr) hv
            · intro h0
              exact absurd h0 (by omega)
          · exact ⟨fun _ => h1, fun _ => by simp⟩
        · have hnev : u ≠ v := fun h => hv (h ▸ hur)
          have hs2u : ({ s with tasks := updateTask s.tasks v (fun t => { t with unresolvedDeps := (s.tasks v).unresolvedDeps - 1 }) } : TaskingState).tasks u = s.tasks u := by
            simp [updateTask, hnev]
          obtain ⟨H1, H2, H3⟩ := (ih { s with tasks := updateTask s.tasks v (fun t => { t with unresolvedDeps := (s.tasks v).unresolvedDeps - 1 }) } hndr).1 u hur
          rw [hs2u] at H1 H2 H3
          refine ⟨H1, ?_, ?_⟩
          · rw [← H2]
            constructor
            · intro hmem
              rcases List.mem_append.mp hmem with hl | hr
              · simp [hnev] at hl
              · exact hr
            · intro hmem
              exact List.mem_append_right _ hmem
          · rw [← H3]
            constructor
            · intro hmem
              rcases List.mem_append.mp hmem with hl | hr
              · simp [hnev] at hl
              · exact hr
            · intro hmem
              exact List.mem_append_right _ hmem
      · rw [List.count_append,
          (ih { s with tasks := updateTask s.tasks v (fun t => { t with unresolvedDeps := (s.tasks v).unresolvedDeps - 1 }) } hndr).2]
        simp [List.count_cons, List.count_append]
        omega
    · by_cases h2 : (s.tasks v).unresolvedDeps - 1 = 0
      · simp only [release_successors, if_neg h1, if_pos h2]
        refine ⟨?_, ?_⟩
        · intro u hu
          rcases List.mem_cons.mp hu with rfl | hur
          · refine ⟨?_, ?_, ?_⟩
            · rw [release_successors_untouched tid rest _ u hv,
                (enqueue_runnable_only_threads _ tid u).1]
              simp [updateTask]
            · exact ⟨fun _ => h2, fun _ => by simp⟩
            · constructor
              · intro hmem
                rcases List.mem_append.mp hmem with hl | hr
                · simp at hl
                · exact absurd
                    (release_successors_defect_mem tid rest _ u hr) hv
              · intro h0
                exact absurd h0 (by omega)
          · have hnev : u ≠ v := fun h => hv (h ▸ hur)
            have hs2u : (dart__tasking__enqueue_runnable { s with tasks := updateTask s.tasks v (fun t => { t with unresolvedDeps := (s.tasks v).unresolvedDeps - 1 }) } tid v).tasks u = s.tasks u := by
              rw [(enqueue_runnable_only_threads _ tid v).1]
              simp [updateTask, hnev]
            obtain ⟨H1, H2, H3⟩ :=
              (ih (dart__tasking__enqueue_runnable { s with tasks := updateTask s.tasks v (fun t => { t with unresolvedDeps := (s.tasks v).unresolvedDeps - 1 }) } tid v) hndr).1 u hur
            rw [hs2u] at H1 H2 H3
            refine ⟨H1, ?_, ?_⟩
            · rw [← H2]
              constructor
              · intro hmem
                rcases List.mem_append.mp hmem with hl | hr
                · simp [hnev] at hl
                · exact hr
              · intro hmem
                exact List.mem_append_right _ hmem
            · rw [← H3]
              constructor
              · intro hmem
                rcases List.mem_append.mp hmem with hl | hr
                · simp [hnev] at hl
                · exact hr
              · intro hmem
                exact List.mem_append_right _ hmem
        · rw [List.count_append, (ih _ hndr).2]
          simp [List.count_cons, List.count_append]
          omega
      · simp only [release_successors, if_neg h1, if_neg h2]
        refine ⟨?_, ?_⟩
        · intro u hu
          rcases List.mem_cons.mp hu with rfl | hur
          · refine ⟨?_, ?_, ?_⟩
            · rw [release_successors_untouched tid rest _ u hv]
              simp [updateTask]
            · constructor
              · intro hmem
                rcases List.mem_append.mp hmem with hl | hr
                · simp at hl
                · exact absurd
                    (release_successors_enqueue_mem tid rest _ u hr) hv
              · intro h0
                exact absurd h0 h2
            · constructor
              · intro hmem
                rcases List.mem_append.mp hmem with hl | hr
                · simp at hl
                · exact absurd
                    (release_successors_defect_mem tid rest _ u hr) hv
              · intro h0
                exact absurd h0 h1
          · have hnev : u ≠ v := fun h => hv (h ▸ hur)
            have hs2u : ({ s with tasks := updateTask s.tasks v (fun t => { t with unresolvedDeps := (s.tasks v).unresolvedDeps - 1 }) } : TaskingState).tasks u = s.tasks u := by
              simp [updateTask, hnev]
            obtain ⟨H1, H2, H3⟩ := (ih { s with tasks := updateTask s.tasks v (fun t => { t with unresolvedDeps := (s.tasks v).unresolvedDeps - 1 }) } hndr).1 u hur
            rw [hs2u] at H1 H2 H3
            refine ⟨H1, ?_, ?_⟩
            · rw [← H2]
              constructor
              · intro hmem
                rcases List.mem_append.mp hmem with hl | hr
                · simp at hl
                · exact hr
              · intro hmem
                exact List.mem_append_right _ hmem
            · rw [← H3]
              constructor
              · intro hmem
                rcases List.mem_append.mp hmem with hl | hr
                · simp at hl
                · exact hr
              · intro hmem
                exact List.mem_append_right _ hmem
        · rw [List.count_append,
            (ih { s with tasks := updateTask s.tasks v (fun t => { t with unresolvedDeps := (s.tasks v).unresolvedDeps - 1 }) } hndr).2]
          simp [List.count_cons, List.count_append]
          omega

theorem remote_acts_mem (l : List DephashElem) :
    ∀ r ∈ l, ReleaseAction.remoteRelease r.taskdep.unitid r.task
        r.taskdep ∈
      l.foldr (fun tmp acc =>
        ReleaseAction.remoteRelease tmp.taskdep.unitid tmp.task
            tmp.taskdep ::
        ReleaseAction.recycleElem :: acc) [] := by
  induction l with
  | nil =>
    intro r hr
    exact absurd hr (List.not_mem_nil r)
  | cons e rest ih =>
    intro r hr
    rcases List.mem_cons.mp hr with rfl | hr2
    · exact List.mem_cons_self _ _
    · exact List.mem_cons_of_mem _ (List.mem_cons_of_mem _ (ih r hr2))

theorem remote_acts_countP (l : List DephashElem) :
    (l.foldr (fun tmp acc =>
        ReleaseAction.remoteRelease tmp.taskdep.unitid tmp.task
            tmp.taskdep ::
        ReleaseAction.recycleElem :: acc) []).countP
      (fun a => a.isRelease) = l.length := by
  induction l with
  | nil => rfl
  | cons e rest ih =>
    simp only [List.foldr_cons, List.countP_cons, ih]
    simp [ReleaseAction.isRelease]

theorem remote_acts_count_dealloc (l : List DephashElem) :
    (l.foldr (fun tmp acc =>
        ReleaseAction.remoteRelease tmp.taskdep.unitid tmp.task
            tmp.taskdep ::
        ReleaseAction.recycleElem :: acc) []).count
      ReleaseAction.deallocNode = 0 := by
  induction l with
  | nil => rfl
  | cons e rest ih =>
    simp [List.count_cons, ih]

theorem remote_acts_no_enqueue (l : List DephashElem) (u : Nat) :
    ReleaseAction.enqueueRunnable u ∉
      l.foldr (fun tmp acc =>
        ReleaseAction.remoteRelease tmp.taskdep.unitid tmp.task
            tmp.taskdep ::
        ReleaseAction.recycleElem :: acc) [] := by
  induction l with
  | nil => exact List.not_mem_nil _
  | cons e rest ih =>
    intro h
    rcases List.mem_cons.mp h with h1 | h2
    · exact absurd h1 (by simp)
    · rcases List.mem_cons.mp h2 with h3 | h4
      · exact absurd h3 (by simp)
      · exact ih h4

theorem remote_acts_no_defect (l : List DephashElem) (u : Nat) :
    ReleaseAction.defect u ∉
      l.foldr (fun tmp acc =>
        ReleaseAction.remoteRelease tmp.taskdep.unitid tmp.task
            tmp.taskdep ::
        ReleaseAction.recycleElem :: acc) [] := by
  induction l with
  | nil => exact List.not_mem_nil _
  | cons e rest ih =>
    intro h
    rcases List.mem_cons.mp h with h1 | h2
    · exact absurd h1 (by simp)
    · rcases List.mem_cons.mp h2 with h3 | h4
      · exact absurd h3 (by simp)
      · exact ih h4

theorem release_successors_no_release (tid : Nat) :
    ∀ (l : List Nat) (s : TaskingState) (a : ReleaseAction),
      a ∈ (release_successors tid s l).2 → a.isRelease = false := by
  intro l
  induction l with
  | nil =>
    intro s a h
    exact absurd h (List.not_mem_nil a)
  | cons v rest ih =>
    intro s a h
    simp only [release_successors] at h
    by_cases h1 : (s.tasks v).unresolvedDeps - 1 < 0
    · simp only [if_pos h1] at h
      rcases List.mem_append.mp h with hl | hr
      · rcases List.mem_cons.mp hl with rfl | hl2
        · rfl
        · rcases List.mem_singleton.mp hl2 with rfl
          rfl
      · exact ih _ a hr
    · simp only [if_neg h1] at h
      by_cases h2 : (s.tasks v).unresolvedDeps - 1 = 0
      · simp only [if_pos h2] at h
        rcases List.mem_append.mp h with hl | hr
        · rcases List.mem_cons.mp hl with rfl | hl2
          · rfl
          · rcases List.mem_singleton.mp hl2 with rfl
            rfl
        · exact ih _ a hr
      · simp only [if_neg h2] at h
        rcases List.mem_append.mp h with hl | hr
        · rcases List.mem_singleton.mp hl with rfl
          rfl
        · exact ih _ a hr

theorem release_local_task_eq (s : TaskingState) (tid task : Nat) :
    dart_tasking_datadeps_release_local_task s tid task =
      ((release_successors tid { s with tasks := updateTask s.tasks task (fun t => { t with remoteSuccessor := [] }) } ((updateTask s.tasks task (fun t => { t with remoteSuccessor := [] }) task).successor)).1,
       (s.tasks task).remoteSuccessor.foldr (fun tmp acc =>
         ReleaseAction.remoteRelease tmp.taskdep.unitid tmp.task
             tmp.taskdep ::
         ReleaseAction.recycleElem :: acc) [] ++
       (release_successors tid { s with tasks := updateTask s.tasks task (fun t => { t with remoteSuccessor := [] }) } ((updateTask s.tasks task (fun t => { t with remoteSuccessor := [] }) task).successor)).2) := rfl

/-- C6: release_local_task first sends one release message per record of
the task's remote_successors (recycling each) and clears that list; then
each node of the local successor list gets its task's unresolved_deps
decremented, is enqueued runnable exactly when the result is 0, flagged
as a defect exactly when negative, and its node deallocated, consuming
the whole list. -/
theorem c6_release_local_task (s : TaskingState) (tid task : Nat)
    (hnd : (s.tasks task).successor.Nodup)
    (hself : task ∉ (s.tasks task).successor) :
    ((dart_tasking_datadeps_release_local_task s tid task).1.tasks
        task).remoteSuccessor = [] ∧
    (∀ r ∈ (s.tasks task).remoteSuccessor,
      ReleaseAction.remoteRelease r.taskdep.unitid r.task r.taskdep ∈
        (dart_tasking_datadeps_release_local_task s tid task).2) ∧
    ((dart_tasking_datadeps_release_local_task s tid task).2.countP
        (fun a => a.isRelease) =
      (s.tasks task).remoteSuccessor.length) ∧
    (∀ u ∈ (s.tasks task).successor,
      ((dart_tasking_datadeps_release_local_task s tid task).1.tasks
          u).unresolvedDeps = (s.tasks u).unresolvedDeps - 1 ∧
      (ReleaseAction.enqueueRunnable u ∈
          (dart_tasking_datadeps_release_local_task s tid task).2 ↔
        (s.tasks u).unresolvedDeps - 1 = 0) ∧
      (ReleaseAction.defect u ∈
          (dart_tasking_datadeps_release_local_task s tid task).2 ↔
        (s.tasks u).unresolvedDeps - 1 < 0)) ∧
    ((dart_tasking_datadeps_release_local_task s tid task).2.count
        ReleaseAction.deallocNode =
      (s.tasks task).successor.length) := by
  have hsucc : (updateTask s.tasks task (fun t => { t with remoteSuccessor := [] }) task).successor = (s.tasks task).successor := by
    simp [updateTask]
  have hunres : ∀ u, ((updateTask s.tasks task (fun t => { t with remoteSuccessor := [] })) u).unresolvedDeps = (s.tasks u).unresolvedDeps := by
    intro u
    simp only [updateTask]
    split <;> simp_all
  rw [release_local_task_eq, hsucc]
  obtain ⟨hspec, hcount⟩ := release_successors_spec tid
    (s.tasks task).successor
    { s with tasks := updateTask s.tasks task (fun t => { t with remoteSuccessor := [] }) } hnd
  refine ⟨?_, ?_, ?_, ?_, ?_⟩
  · rw [release_successors_untouched tid _ _ task hself]
    simp [updateTask]
  · intro r hr
    exact List.mem_append_left _ (remote_acts_mem _ r hr)
  · rw [List.countP_append, remote_acts_countP,
      List.countP_eq_zero.mpr]
    · exact Nat.add_zero _
    · intro a ha
      simp [release_successors_no_release tid _ _ a ha]
  · intro u hu
    have hneu : u ≠ task := fun h => hself (h ▸ hu)
    obtain ⟨H1, H2, H3⟩ := hspec u hu
    rw [hunres u] at H1 H2 H3
    refine ⟨H1, ?_, ?_⟩
    · rw [← H2]
      constructor
      · intro hmem
        rcases List.mem_append.mp hmem with hl | hr
        · exact absurd hl (remote_acts_no_enqueue _ u)
        · exact hr
      · intro hmem
        exact List.mem_append_right _ hmem
    · rw [← H3]
      constructor
      · intro hmem
        rcases List.mem_append.mp hmem with hl | hr
        · exact absurd hl (remote_acts_no_defect _ u)
        · exact hr
      · intro hmem
        exact List.mem_append_right _ hmem
  · rw [List.count_append, remote_acts_count_dealloc, hcount]
    exact Nat.zero_add _

/-- A staged remote record on task 4's remote_successors, from origin 5
for remote task 88. -/
def c6rec : DephashElem :=
  { task := 88,
    taskdep := { type := DepType.IN, addr := 8, unitid := 5, depTask := none },
    phase := 0 }

/-- Task 4 in TEARDOWN with one remote successor and local successors
5 (one dep left), 6 (three deps left) and 7 (zero deps left). -/
def c6state : TaskingState :=
  { blankState with
    tasks := fun t => if t = 0 then rootTask
      else if t = 4 then { blankTask with state := TaskState.TEARDOWN, remoteSuccessor := [c6rec], successor := [5, 6, 7] }
      else if t = 5 then { blankTask with unresolvedDeps := 1 }
      else if t = 6 then { blankTask with unresolvedDeps := 3 }
      else blankTask }

theorem c6_release_local_task_witness :
    ((dart_tasking_datadeps_release_local_task c6state 0 4).1.tasks
        4).remoteSuccessor = [] ∧
    ReleaseAction.remoteRelease 5 88 c6rec.taskdep ∈
      (dart_tasking_datadeps_release_local_task c6state 0 4).2 ∧
    (dart_tasking_datadeps_release_local_task c6state 0 4).2.countP
      (fun a => a.isRelease) = 1 ∧
    ((dart_tasking_datadeps_release_local_task c6state 0 4).1.tasks
        5).unresolvedDeps = 0 ∧
    ReleaseAction.enqueueRunnable 5 ∈
      (dart_tasking_datadeps_release_local_task c6state 0 4).2 ∧
    ReleaseAction.defect 7 ∈
      (dart_tasking_datadeps_release_local_task c6state 0 4).2 ∧
    (dart_tasking_datadeps_release_local_task c6state 0 4).2.count
      ReleaseAction.deallocNode = 3 := by
  obtain ⟨h1, h2, h3, h4, h5⟩ :=
    c6_release_local_task c6state 0 4 (by decide) (by decide)
  have h45 := h4 5 (by decide)
  have h47 := h4 7 (by decide)
  refine ⟨h1, h2 c6rec (by decide), ?_, ?_,
    h45.2.1.mpr (by decide), h47.2.2.mpr (by decide), ?_⟩
  · rw [h3]
    decide
  · rw [h45.1]
    decide
  · rw [h5]
    decide

/-- The filter of §4.4's duplicate assertion context: the declared
dependencies that are neither IGNORE nor DIRECT. -/
def relevantDep (d : TaskDep) : Bool :=
  d.type != DepType.IGNORE && d.type != DepType.DIRECT

theorem applyDDActions_localDeps :
    ∀ (acts : List DDAction) (s : TaskingState),
      (applyDDActions s acts).localDeps = s.localDeps := by
  intro acts
  induction acts with
  | nil => intro s; rfl
  | cons a rest ih =>
    intro s
    have hstep : applyDDActions s (a :: rest) =
        applyDDActions (applyDDAction s a) rest := rfl
    rw [hstep, ih]
    cases a <;> rfl

theorem walk_no_assert (σ : TaskStore) (tid : Nat) (dep : TaskDep) :
    ∀ bucket : List DephashElem,
      (∀ e ∈ bucket, ¬(e.taskdep.addr = dep.addr ∧ e.task = tid)) →
      DDAction.assertDup ∉ handle_local_dep_walk σ tid dep bucket := by
  intro bucket
  induction bucket with
  | nil =>
    intro _
    exact List.not_mem_nil _
  | cons e rest ih =>
    intro hno
    have hrest := ih (fun e2 he2 => hno e2 (List.mem_cons_of_mem e he2))
    have hne := hno e (List.mem_cons_self e rest)
    cases haddr : e.taskdep.addr == dep.addr <;>
    cases hdup : e.task == tid <;>
    cases hout : IS_OUT_DEP e.taskdep.type <;>
    cases hc : ((σ e.task).state != TaskState.FINISHED &&
      (IS_OUT_DEP dep.type ||
        (dep.type == DepType.IN && IS_OUT_DEP e.taskdep.type))) <;>
    simp_all [handle_local_dep_walk]

theorem process_dep_localDeps (s : TaskingState) (myid tid : Nat)
    (d : TaskDep) :
    (datadeps_process_dep s myid tid d).1.localDeps = s.localDeps ∨
    ((d.type == DepType.IGNORE) = false ∧
     (d.type == DepType.DIRECT) = false ∧
     (d.unitid != myid) = false ∧
     (datadeps_process_dep s myid tid d).1.localDeps = fun i =>
        if i = hash_gptr d.addr then
          { task := tid, taskdep := d,
            phase := ((applyDDActions s (handle_local_dep_walk s.tasks tid
              d (s.localDeps (hash_gptr d.addr)))).tasks tid).phase } ::
            s.localDeps i
        else s.localDeps i) := by
  by_cases hig : (d.type == DepType.IGNORE) = true
  · left
    simp [datadeps_process_dep, hig]
  · by_cases hdir : (d.type == DepType.DIRECT) = true
    · left
      rcases hdt : d.depTask with _ | dt
      · simp [datadeps_process_dep, hig, hdir, hdt]
      · by_cases hfin : ((s.tasks dt).state != TaskState.FINISHED) = true
        · simp [datadeps_process_dep, hig, hdir, hdt, hfin,
            applyDDActions_localDeps]
        · simp [datadeps_process_dep, hig, hdir, hdt, hfin]
    · by_cases hrem : (d.unitid != myid) = true
      · left
        by_cases hroot :
            ((s.tasks (s.tasks tid).parent).state == TaskState.ROOT) = true <;>
          simp [datadeps_process_dep, hig, hdir, hrem, hroot]
      · right
        refine ⟨Bool.eq_false_iff.mpr hig, Bool.eq_false_iff.mpr hdir,
          Bool.eq_false_iff.mpr hrem, ?_⟩
        funext i
        simp [datadeps_process_dep, hig, hdir, hrem, dephash_add_local,
          applyDDActions_localDeps]

theorem handle_task_no_dup_aux (myid tid : Nat) :
    ∀ (deps : List TaskDep) (s : TaskingState),
      (∀ slot e, e ∈ s.localDeps slot → e.task = tid →
        ∀ d ∈ deps, relevantDep d = true → d.unitid = myid →
          e.taskdep.addr ≠ d.addr) →
      ((deps.filter relevantDep).map (fun x => x.addr)).Nodup →
      DDAction.assertDup ∉
        (dart_tasking_datadeps_handle_task myid tid s deps).2 := by
  intro deps
  induction deps with
  | nil =>
    intro s _ _
    exact List.not_mem_nil _
  | cons d rest ih =>
    intro s hinv hnd
    intro hmem
    simp only [dart_tasking_datadeps_handle_task] at hmem
    rcases List.mem_append.mp hmem with hl | hr
    · by_cases hig : (d.type == DepType.IGNORE) = true
      · simp [datadeps_process_dep, hig] at hl
      · by_cases hdir : (d.type == DepType.DIRECT) = true
        · rcases hdt : d.depTask with _ | dt
          · simp [datadeps_process_dep, hig, hdir, hdt] at hl
          · by_cases hfin : ((s.tasks dt).state != TaskState.FINISHED) = true
            · simp [datadeps_process_dep, hig, hdir, hdt, hfin,
                applyDDActions] at hl
            · simp [datadeps_process_dep, hig, hdir, hdt, hfin] at hl
        · by_cases hrem : (d.unitid != myid) = true
          · by_cases hroot :
                ((s.tasks (s.tasks tid).parent).state ==
                  TaskState.ROOT) = true <;>
              simp [datadeps_process_dep, hig, hdir, hrem, hroot] at hl
          · have hl2 : DDAction.assertDup ∈ handle_local_dep_walk s.tasks
                tid d (s.localDeps (hash_gptr d.addr)) := by
              simpa [datadeps_process_dep, hig, hdir, hrem] using hl
            refine absurd hl2 (walk_no_assert s.tasks tid d _ ?_)
            intro e he hpair
            exact hinv (hash_gptr d.addr) e he hpair.2 d
              (List.mem_cons_self d rest)
              (by simp only [relevantDep, Bool.and_eq_true, bne_iff_ne]
                  exact ⟨by simpa using hig, by simpa using hdir⟩)
              (by simpa using hrem) hpair.1
    · have hrel_of : relevantDep d = true →
          (((d :: rest).filter relevantDep).map (fun x => x.addr)) =
            d.addr :: ((rest.filter relevantDep).map (fun x => x.addr)) := by
        intro hrel
        simp [List.filter_cons, hrel]
      have hnd_rest :
          ((rest.filter relevantDep).map (fun x => x.addr)).Nodup := by
        cases hrel : relevantDep d
        · simpa [List.filter_cons, hrel] using hnd
        · rw [hrel_of hrel] at hnd
          exact (List.nodup_cons.mp hnd).2
      have hinv_rest : ∀ slot e,
          e ∈ (datadeps_process_dep s myid tid d).1.localDeps slot →
          e.task = tid → ∀ d2 ∈ rest, relevantDep d2 = true →
            d2.unitid = myid → e.taskdep.addr ≠ d2.addr := by
        intro slot e he htid d2 hd2 hrel2 hu2
        rcases process_dep_localDeps s myid tid d with hsame |
          ⟨hig, hdir, hrem, hupd⟩
        · rw [hsame] at he
          exact hinv slot e he htid d2 (List.mem_cons_of_mem d hd2)
            hrel2 hu2
        · rw [hupd] at he
          simp only at he
          by_cases hslot : slot = hash_gptr d.addr
          · rw [if_pos hslot] at he
            rcases List.mem_cons.mp he with rfl | he2
            · intro heq
              have hreld : relevantDep d = true := by
                simp only [relevantDep, Bool.and_eq_true, bne_iff_ne]
                exact ⟨by simpa using hig, by simpa using hdir⟩
              rw [hrel_of hreld] at hnd
              have hnotin := (List.nodup_cons.mp hnd).1
              refine hnotin ?_
              rw [show d.addr = d2.addr from heq]
              exact List.mem_map_of_mem _
                (List.mem_filter.mpr ⟨hd2, hrel2⟩)
            · exact hinv slot e he2 htid d2 (List.mem_cons_of_mem d hd2)
                hrel2 hu2
          · rw [if_neg hslot] at he
            exact hinv slot e he htid d2 (List.mem_cons_of_mem d hd2)
              hrel2 hu2
      exact ih _ hinv_rest hnd_rest hr

/-- C8: when a call to handle_task declares non-IGNORE, non-DIRECT
dependencies with pairwise distinct region addresses, against a hash
holding no record of the handled task, the duplicate-entry assertion of
the bucket walk never fires. -/
theorem c8_no_duplicate_assertion (myid tid : Nat) (deps : List TaskDep)
    (s : TaskingState)
    (hclean : ∀ slot e, e ∈ s.localDeps slot → e.task ≠ tid)
    (hnd : ((deps.filter relevantDep).map (fun x => x.addr)).Nodup) :
    DDAction.assertDup ∉
      (dart_tasking_datadeps_handle_task myid tid s deps).2 :=
  handle_task_no_dup_aux myid tid deps s
    (fun slot e he htid => absurd htid (hclean slot e he)) hnd

/-- A record of another task (3) in the bucket of region 8, plus two
fresh dependencies of task 9 on regions 8 and 16, for the C8 witness. -/
def c8rec : DephashElem :=
  { task := 3,
    taskdep := { type := DepType.OUT, addr := 8, unitid := 0, depTask := none },
    phase := 0 }

def c8state : TaskingState :=
  { blankState with
    localDeps := fun slot => if slot = hash_gptr 8 then [c8rec] else [] }

def c8deps : List TaskDep :=
  [{ type := DepType.OUT, addr := 8, unitid := 0, depTask := none },
   { type := DepType.IN, addr := 16, unitid := 0, depTask := none }]

theorem c8_no_duplicate_assertion_witness :
    DDAction.assertDup ∉
      (dart_tasking_datadeps_handle_task 0 9 c8state c8deps).2 := by
  refine c8_no_duplicate_assertion 0 9 c8deps c8state ?_ (by decide)
  intro slot e he
  by_cases h : slot = hash_gptr 8
  · rw [show c8state.localDeps slot = [c8rec] from by simp [c8state, h]]
      at he
    rcases List.mem_singleton.mp he with rfl
    decide
  · rw [show c8state.localDeps slot = [] from by simp [c8state, h]] at he
    exact absurd he (List.not_mem_nil e)

/-- The state right after the root preamble resolved the unhandled
remote requests, with the phase bound advanced to the root phase. -/
def postUnhandled (s : TaskingState) : TaskingState :=
  { (dart_tasking_datadeps_release_unhandled_remote s 0).1 with
    phaseBound :=
      ((dart_tasking_datadeps_release_unhandled_remote s 0).1.tasks 0).phase }

theorem rootPreState_eq_setThread (s : TaskingState) :
    rootPreState s = setThread (postUnhandled s) 0
      { queue := (getThread (postUnhandled s) 0).deferedQueue ++
          (getThread (postUnhandled s) 0).queue,
        deferedQueue := [] } := rfl

theorem release_unhandled_empty (s : TaskingState) (tid : Nat)
    (h1 : s.unhandledRemote = []) (h2 : s.deferredReleases = []) :
    dart_tasking_datadeps_release_unhandled_remote s tid =
      ({ s with unhandledRemote := [], deferredReleases := [] }, [], []) := by
  unfold dart_tasking_datadeps_release_unhandled_remote
    release_deferred_remote_releases
  rw [h1]
  simp only [drain_unhandled]
  rw [show ({ s with unhandledRemote := ([] : List DephashElem)
      } : TaskingState).deferredReleases = s.deferredReleases from rfl, h2]
  simp only [drain_deferred]

theorem postUnhandled_tasks (s : TaskingState)
    (h1 : s.unhandledRemote = []) (h2 : s.deferredReleases = []) :
    (postUnhandled s).tasks = s.tasks := by
  show (dart_tasking_datadeps_release_unhandled_remote s 0).1.tasks =
    s.tasks
  rw [release_unhandled_empty s 0 h1 h2]

theorem postUnhandled_threads (s : TaskingState)
    (h1 : s.unhandledRemote = []) (h2 : s.deferredReleases = []) :
    (postUnhandled s).threads = s.threads := by
  show (dart_tasking_datadeps_release_unhandled_remote s 0).1.threads =
    s.threads
  rw [release_unhandled_empty s 0 h1 h2]

theorem postUnhandled_unhandled (s : TaskingState)
    (h1 : s.unhandledRemote = []) (h2 : s.deferredReleases = []) :
    (postUnhandled s).unhandledRemote = [] := by
  show (dart_tasking_datadeps_release_unhandled_remote
    s 0).1.unhandledRemote = []
  rw [release_unhandled_empty s 0 h1 h2]

theorem postUnhandled_deferred (s : TaskingState)
    (h1 : s.unhandledRemote = []) (h2 : s.deferredReleases = []) :
    (postUnhandled s).deferredReleases = [] := by
  show (dart_tasking_datadeps_release_unhandled_remote
    s 0).1.deferredReleases = []
  rw [release_unhandled_empty s 0 h1 h2]

theorem quiescent_getThread (s : TaskingState)
    (hth : ∀ th ∈ s.threads, th.queue = [] ∧ th.deferedQueue = [])
    (j : Nat) : getThread s j = { queue := [], deferedQueue := [] } := by
  unfold getThread
  rcases hg : s.threads[j]? with _ | th
  · simp [List.getD_eq_getElem?_getD, hg]
  · have hmem : th ∈ s.threads := by
      exact List.getElem?_mem hg
    obtain ⟨hq, hd⟩ := hth th hmem
    cases th
    simp_all [List.getD_eq_getElem?_getD]

theorem completeLoop_no_children (tid curTask fuel : Nat)
    (s : TaskingState) (h : ¬(s.tasks curTask).numChildren > 0) :
    completeLoop tid curTask fuel s = some s := by
  cases fuel <;> simp [completeLoop, h]

/-- One round of the C9 scenario: phase() on the master thread followed
by task_complete() on the root. -/
def phaseAndComplete (fuel : Nat) (s : TaskingState) :
    Option TaskingState :=
  match dart__tasking__task_complete (dart__tasking__phase s 0).2 0 0
      fuel with
  | some r => some r.2.1
  | none => none

/-- n rounds of phase() followed by root task_complete(). -/
def phaseCompleteIter (fuel : Nat) :
    Nat → TaskingState → Option TaskingState
  | 0, s => some s
  | n + 1, s =>
    match phaseAndComplete fuel s with
    | some s2 => phaseCompleteIter fuel n s2
    | none => none

theorem rootPreState_quiescent_facts (s : TaskingState)
    (h1 : s.unhandledRemote = []) (h2 : s.deferredReleases = [])
    (h4 : ∀ th ∈ s.threads, th.queue = [] ∧ th.deferedQueue = []) :
    (rootPreState s).tasks = s.tasks ∧
    (rootPreState s).unhandledRemote = [] ∧
    (rootPreState s).deferredReleases = [] ∧
    (∀ th ∈ (rootPreState s).threads,
      th.queue = [] ∧ th.deferedQueue = []) := by
  have hpt := postUnhandled_tasks s h1 h2
  have hpth := postUnhandled_threads s h1 h2
  have hgt : getThread (postUnhandled s) 0 =
      { queue := [], deferedQueue := [] } := by
    apply quiescent_getThread
    rw [hpth]
    exact h4
  refine ⟨?_, ?_, ?_, ?_⟩
  · show (postUnhandled s).tasks = s.tasks
    exact hpt
  · show (postUnhandled s).unhandledRemote = []
    exact postUnhandled_unhandled s h1 h2
  · show (postUnhandled s).deferredReleases = []
    exact postUnhandled_deferred s h1 h2
  · rw [rootPreState_eq_setThread, hgt]
    intro th hth
    have hth2 : th ∈ (postUnhandled s).threads.set 0
        { queue := [] ++ [], deferedQueue := [] } := hth
    rcases List.mem_or_eq_of_mem_set hth2 with hmem | heq
    · rw [hpth] at hmem
      exact h4 th hmem
    · rw [heq]
      exact ⟨rfl, rfl⟩

theorem phaseAndComplete_quiescent (fuel : Nat) (s : TaskingState)
    (hq1 : s.unhandledRemote = []) (hq2 : s.deferredReleases = [])
    (hq3 : (s.tasks 0).numChildren = 0)
    (hq4 : ∀ th ∈ s.threads, th.queue = [] ∧ th.deferedQueue = [])
    (hov : (s.tasks 0).phase + 1 < 2 ^ 64) :
    ∃ s2, phaseAndComplete fuel s = some s2 ∧
      s2.unhandledRemote = [] ∧ s2.deferredReleases = [] ∧
      (s2.tasks 0).numChildren = 0 ∧
      (∀ th ∈ s2.threads, th.queue = [] ∧ th.deferedQueue = []) ∧
      (s2.tasks 0).phase = (s.tasks 0).phase + 1 ∧
      (∀ slot, s2.localDeps slot = []) := by
  set s1 : TaskingState := { s with tasks := updateTask s.tasks 0 (fun t => { t with phase := (t.phase + 1) % 2 ^ 64 }) } with hs1def
  have h1phase : (s1.tasks 0).phase = (s.tasks 0).phase + 1 := by
    rw [hs1def]
    show ((updateTask s.tasks 0 (fun t => { t with phase := (t.phase + 1) % 2 ^ 64 })) 0).phase = _
    simp only [updateTask, if_pos rfl]
    exact Nat.mod_eq_of_lt hov
  have h1nc : (s1.tasks 0).numChildren = 0 := by
    rw [hs1def]
    show ((updateTask s.tasks 0 (fun t => { t with phase := (t.phase + 1) % 2 ^ 64 })) 0).numChildren = 0
    simp only [updateTask, if_pos rfl]
    exact hq3
  obtain ⟨hT, hU, hD, hTh⟩ := rootPreState_quiescent_facts s1 hq1 hq2 hq4
  have hnc2 : ¬((rootPreState s1).tasks 0).numChildren > 0 := by
    rw [hT, h1nc]
    omega
  have hloop := completeLoop_no_children 0 0 fuel (rootPreState s1) hnc2
  refine ⟨{ dart_tasking_datadeps_reset (rootPreState s1) with taskFree := (dart_tasking_datadeps_reset (rootPreState s1)).taskRecycle, taskRecycle := [] }, ?_, ?_, ?_, ?_, ?_, ?_, ?_⟩
  · unfold phaseAndComplete
    rw [show (dart__tasking__phase s 0).2 = s1 from rfl]
    rw [task_complete_root_eq s1 fuel, hloop]
  · show (rootPreState s1).unhandledRemote = []
    exact hU
  · show (rootPreState s1).deferredReleases = []
    exact hD
  · show ((rootPreState s1).tasks 0).numChildren = 0
    rw [hT]
    exact h1nc
  · intro th hth
    exact hTh th hth
  · show ((rootPreState s1).tasks 0).phase = _
    rw [hT]
    exact h1phase
  · intro slot
    rfl

/-- C9: from a quiescent state (no staged remote requests, no deferred
releases, no outstanding root children, empty queues), n rounds of
phase() followed by an empty root task_complete() succeed, leave every
bucket of the dependency hash empty (for n > 0), keep the state
quiescent and increase the root phase by exactly n (absent uint64
wrap-around). -/
theorem c9_phase_complete_rounds (fuel : Nat) :
    ∀ (n : Nat) (s : TaskingState),
      s.unhandledRemote = [] → s.deferredReleases = [] →
      (s.tasks 0).numChildren = 0 →
      (∀ th ∈ s.threads, th.queue = [] ∧ th.deferedQueue = []) →
      (s.tasks 0).phase + n < 2 ^ 64 →
      ∃ s2, phaseCompleteIter fuel n s = some s2 ∧
        (s2.tasks 0).phase = (s.tasks 0).phase + n ∧
        s2.unhandledRemote = [] ∧ s2.deferredReleases = [] ∧
        (s2.tasks 0).numChildren = 0 ∧
        (∀ th ∈ s2.threads, th.queue = [] ∧ th.deferedQueue = []) ∧
        (0 < n → ∀ slot, s2.localDeps slot = []) := by
  intro n
  induction n with
  | zero =>
    intro s h1 h2 h3 h4 _
    exact ⟨s, rfl, rfl, h1, h2, h3, h4, fun h => absurd h (by omega)⟩
  | succ n ihn =>
    intro s h1 h2 h3 h4 hov
    obtain ⟨s2, hrun, h2u, h2d, h2n, h2th, h2p, h2l⟩ :=
      phaseAndComplete_quiescent fuel s h1 h2 h3 h4 (by omega)
    obtain ⟨s3, hrun3, hp3, hu3, hd3, hn3, hth3, hl3⟩ :=
      ihn s2 h2u h2d h2n h2th (by rw [h2p]; omega)
    refine ⟨s3, ?_, ?_, hu3, hd3, hn3, hth3, ?_⟩
    · simp only [phaseCompleteIter, hrun]
      exact hrun3
    · rw [hp3, h2p]
      omega
    · intro _
      rcases Nat.eq_zero_or_pos n with rfl | hn
      · have hs32 : s2 = s3 :=
          Option.some.inj (by simpa [phaseCompleteIter] using hrun3)
        rw [← hs32]
        exact h2l
      · exact hl3 hn

theorem c9_phase_complete_rounds_witness :
    blankState.unhandledRemote = [] ∧
    blankState.deferredReleases = [] ∧
    (blankState.tasks 0).numChildren = 0 ∧
    (phaseCompleteIter 0 3 blankState).map
      (fun s2 => (s2.tasks 0).phase) = some 3 ∧
    (phaseCompleteIter 0 3 blankState).map
      (fun s2 => s2.localDeps 5) = some [] := by
  obtain ⟨s2, hrun, hp, _, _, _, _, hl⟩ :=
    c9_phase_complete_rounds 0 3 blankState rfl rfl (by decide)
      (by decide) (by decide)
  refine ⟨rfl, rfl, by decide, ?_, ?_⟩
  · rw [hrun]
    show some ((s2.tasks 0).phase) = some 3
    rw [hp]
    decide
  · rw [hrun]
    show some (s2.localDeps 5) = some []
    rw [hl (by omega) 5]

end DartTasking
